import Mathlib

/-!
Verification of the `cpio_reader` crate (`src/lib.rs`): a zero-copy decoder of
cpio archives supporting the Old Binary, Portable ASCII (odc) and
New ASCII / New CRC formats.

The Rust source is embedded shallowly: byte buffers are `List Nat` whose
elements are below 256, the bounds-checked cursor `ByteArray` is explicit
state passing, fallible parsing returns `Option`, and machine integers are
`Nat` with explicit `% 2 ^ w` where wrap-around matters.  Strings (`&str`)
are kept as their UTF-8 byte sequences together with the validity check
Rust's `str::from_utf8` performs; string equality in the source is byte
equality, which the model preserves.
-/

set_option maxHeartbeats 1000000

namespace Cpio

/-- UTF-8 validity of a byte sequence, as checked by Rust's
`core::str::from_utf8`: ASCII bytes stand alone; two-byte sequences have a
lead in `0xC2..0xDF`; three-byte sequences exclude overlongs (`0xE0` lead
needs a first continuation in `0xA0..0xBF`) and surrogates (`0xED` lead
needs `0x80..0x9F`); four-byte sequences exclude overlongs (`0xF0` lead
needs `0x90..0xBF`) and values above `U+10FFFF` (`0xF4` lead needs
`0x80..0x8F`). -/
def utf8Valid : List Nat → Bool
  | [] => true
  | b :: rest =>
    if b < 0x80 then utf8Valid rest
    else if b < 0xC2 then false
    else if b < 0xE0 then
      match rest with
      | b1 :: rest2 => decide (0x80 ≤ b1 ∧ b1 ≤ 0xBF) && utf8Valid rest2
      | [] => false
    else if b < 0xF0 then
      match rest with
      | b1 :: b2 :: rest2 =>
        (if b = 0xE0 then decide (0xA0 ≤ b1 ∧ b1 ≤ 0xBF)
         else if b = 0xED then decide (0x80 ≤ b1 ∧ b1 ≤ 0x9F)
         else decide (0x80 ≤ b1 ∧ b1 ≤ 0xBF)) &&
        decide (0x80 ≤ b2 ∧ b2 ≤ 0xBF) && utf8Valid rest2
      | _ => false
    else if b < 0xF5 then
      match rest with
      | b1 :: b2 :: b3 :: rest2 =>
        (if b = 0xF0 then decide (0x90 ≤ b1 ∧ b1 ≤ 0xBF)
         else if b = 0xF4 then decide (0x80 ≤ b1 ∧ b1 ≤ 0x8F)
         else decide (0x80 ≤ b1 ∧ b1 ≤ 0xBF)) &&
        decide (0x80 ≤ b2 ∧ b2 ≤ 0xBF) && decide (0x80 ≤ b3 ∧ b3 ≤ 0xBF) &&
        utf8Valid rest2
      | _ => false
    else false

/-- `char::to_digit(radix)` applied to a byte, as used by
`from_str_radix`: `'0'..'9'` give `0..9`, letters give `10..35`, and the
result must be below the radix. -/
def char_to_digit (radix b : Nat) : Option Nat :=
  (if 48 ≤ b ∧ b ≤ 57 then some (b - 48)
   else if 65 ≤ b ∧ b ≤ 90 then some (b - 55)
   else if 97 ≤ b ∧ b ≤ 122 then some (b - 87)
   else none).bind fun v => if v < radix then some v else none

/-- Rust's `uN::from_str_radix` on the byte sequence of the string, for an
unsigned type whose values are below `bound`: one optional leading `'+'`,
then at least one digit, every byte a digit of the radix, accumulated
left-to-right with a checked-overflow test against `bound`. -/
def from_str_radix (radix bound : Nat) (s : List Nat) : Option Nat :=
  let digits := match s with
    | 43 :: rest => rest
    | _ => s
  if digits.isEmpty then none
  else
    digits.foldl
      (fun acc b =>
        acc.bind fun a =>
          (char_to_digit radix b).bind fun d =>
            if a * radix + d < bound then some (a * radix + d) else none)
      (some 0)

/-- Byte order for the Old Binary format, from the source's `Endianness`. -/
inductive Endianness
  | Big
  | Little
deriving DecidableEq

/-- `Endianness::u8_array_to_u16`. -/
def Endianness.u8_array_to_u16 : Endianness → Nat × Nat → Nat
  | .Big, (b0, b1) => b0 * 256 + b1
  | .Little, (b0, b1) => b1 * 256 + b0

/-- The source's bounds-checked cursor `ByteArray`: the unconsumed tail plus
the count of bytes consumed so far (used for alignment arithmetic). -/
structure ByteArray where
  binary : List Nat
  current : Nat
deriving DecidableEq

namespace ByteArray

/-- `ByteArray::new`. -/
def new (binary : List Nat) : ByteArray := ⟨binary, 0⟩

/-- `ByteArray::into_inner`. -/
def into_inner (ba : ByteArray) : List Nat := ba.binary

/-- `ByteArray::skip_bytes`: `self.binary.get(n..).unwrap_or_default()`
clamps at the end of the buffer, which `List.drop` does as well. -/
def skip_bytes (ba : ByteArray) (n : Nat) : ByteArray :=
  ⟨ba.binary.drop n, ba.current + n⟩

/-- `ByteArray::proceed_byte`. -/
def proceed_byte (ba : ByteArray) : Option (Nat × ByteArray) :=
  ba.binary.head?.map fun b => (b, ba.skip_bytes 1)

/-- `ByteArray::proceed_bytes`: `self.binary.get(..n)` fails when fewer
than `n` bytes remain. -/
def proceed_bytes (ba : ByteArray) (n : Nat) : Option (List Nat × ByteArray) :=
  if n ≤ ba.binary.length then some (ba.binary.take n, ba.skip_bytes n) else none

/-- `ByteArray::proceed_str`: `proceed_bytes` plus `str::from_utf8`. -/
def proceed_str (ba : ByteArray) (n : Nat) : Option (List Nat × ByteArray) :=
  (ba.proceed_bytes n).bind fun p =>
    if utf8Valid p.1 then some p else none

/-- `ByteArray::proceed_str_into_octal_u32`. -/
def proceed_str_into_octal_u32 (ba : ByteArray) (n : Nat) : Option (Nat × ByteArray) :=
  (ba.proceed_str n).bind fun p =>
    (from_str_radix 8 (2 ^ 32) p.1).map fun v => (v, p.2)

/-- `ByteArray::proceed_str_into_octal_u64`. -/
def proceed_str_into_octal_u64 (ba : ByteArray) (n : Nat) : Option (Nat × ByteArray) :=
  (ba.proceed_str n).bind fun p =>
    (from_str_radix 8 (2 ^ 64) p.1).map fun v => (v, p.2)

/-- `ByteArray::proceed_str_into_hex` (always 8 characters, `u32`). -/
def proceed_str_into_hex (ba : ByteArray) : Option (Nat × ByteArray) :=
  (ba.proceed_str 8).bind fun p =>
    (from_str_radix 16 (2 ^ 32) p.1).map fun v => (v, p.2)

/-- `ByteArray::proceed_u16`. -/
def proceed_u16 (ba : ByteArray) (endianness : Endianness) : Option (Nat × ByteArray) :=
  ba.proceed_byte.bind fun p0 =>
    p0.2.proceed_byte.map fun p1 =>
      (endianness.u8_array_to_u16 (p0.1, p1.1), p1.2)

/-- `ByteArray::skip_to_next_multiple_of_four`. -/
def skip_to_next_multiple_of_four (ba : ByteArray) : ByteArray :=
  ba.skip_bytes ((4 - ba.current % 4) % 4)

end ByteArray

/-- The union of every flag constant declared in the `bitflags!` block is
`0o177777`; `bitflags` generates `Mode::all()` as that union. -/
def modeAllBits : Nat := 0o177777

/-- The source's `Mode` bit-flag newtype over `u32`. -/
structure Mode where
  bits : Nat
deriving DecidableEq

namespace Mode

/-- `Mode::from_bits`, as generated by `bitflags`:
`if (bits & !Self::all().bits()) == 0 { Some(...) } else { None }`,
with the complement taken in `u32`. -/
def from_bits (v : Nat) : Option Mode :=
  if v &&& (0xFFFFFFFF ^^^ modeAllBits) = 0 then some ⟨v⟩ else none

/-- `Mode::contains`, as generated by `bitflags`:
`(self.bits & other.bits) == other.bits`. -/
def contains (m other : Mode) : Bool :=
  m.bits &&& other.bits == other.bits

def USER_EXECUTABLE : Mode := ⟨0o000001⟩
def USER_WRITABLE : Mode := ⟨0o000002⟩
def USER_READABLE : Mode := ⟨0o000004⟩
def GROUP_EXECUTABLE : Mode := ⟨0o000010⟩
def GROUP_WRITABLE : Mode := ⟨0o000020⟩
def GROUP_READABLE : Mode := ⟨0o000040⟩
def WORLD_EXECUTABLE : Mode := ⟨0o000100⟩
def WORLD_WRITABLE : Mode := ⟨0o000200⟩
def WORLD_READABLE : Mode := ⟨0o000400⟩
def STICKY : Mode := ⟨0o001000⟩
def SGID : Mode := ⟨0o002000⟩
def SUID : Mode := ⟨0o004000⟩
def NAMED_PIPE_FIFO : Mode := ⟨0o010000⟩
def CHARACTER_SPECIAL_DEVICE : Mode := ⟨0o020000⟩
def DIRECTORY : Mode := ⟨0o040000⟩
def BLOCK_SPECIAL_DEVICE : Mode := ⟨0o060000⟩
def REGULAR_FILE : Mode := ⟨0o100000⟩
def SYMBOLIK_LINK : Mode := ⟨0o120000⟩
def SOCKET : Mode := ⟨0o140000⟩

end Mode

/-- The decoded entry; `name` and `file` are the borrowed byte slices of the
source, kept as byte lists. -/
structure Entry where
  dev : Option Nat
  devmajor : Option Nat
  devminor : Option Nat
  ino : Nat
  mode : Mode
  uid : Nat
  gid : Nat
  nlink : Nat
  rdev : Option Nat
  rdevmajor : Option Nat
  rdevminor : Option Nat
  mtime : Nat
  name : List Nat
  file : List Nat
deriving DecidableEq

/-- The UTF-8 bytes of the end-of-archive sentinel name `TRAILER!!!`. -/
def TRAILER : List Nat := [84, 82, 65, 73, 76, 69, 82, 33, 33, 33]

/-- The UTF-8 bytes of the Portable ASCII magic string `070707`. -/
def MAGIC_PORTABLE : List Nat := [48, 55, 48, 55, 48, 55]

/-- The UTF-8 bytes of the New ASCII magic string `070701`. -/
def MAGIC_NEW_ASCII : List Nat := [48, 55, 48, 55, 48, 49]

/-- The UTF-8 bytes of the New CRC magic string `070702`. -/
def MAGIC_CRC : List Nat := [48, 55, 48, 55, 48, 50]

/-- The content checksum of the New CRC format:
`file.iter().fold(0_u32, |acc, &x| acc.wrapping_add(x.into()))`. -/
def checksumOf (l : List Nat) : Nat :=
  l.foldl (fun acc x => (acc + x) % 2 ^ 32) 0

/-- The `?` operator on `Option`.  (Semantically `Option.bind`; a separate
definition keeps the chained decoders cheap for the code generator.) -/
def obind {α β : Type} (o : Option α) (f : α → Option β) : Option β :=
  match o with
  | none => none
  | some a => f a

namespace Entry

/-- `Entry::interpret_as_old_binary`.  The `filesize.try_into().unwrap()`
conversions here are `u32 → usize` and never fail on 32- or 64-bit targets,
so they are the identity in the model. -/
def interpret_as_old_binary (binary : List Nat) : Option (Entry × List Nat) :=
  let MAGIC : Nat := 0o070707
  obind (ByteArray.new binary).proceed_byte fun (m0, ba) =>
  obind ba.proceed_byte fun (m1, ba) =>
  obind
    (if Endianness.Big.u8_array_to_u16 (m0, m1) = MAGIC then some Endianness.Big
     else if Endianness.Little.u8_array_to_u16 (m0, m1) = MAGIC then some Endianness.Little
     else none) fun endianness =>
  obind (ba.proceed_u16 endianness) fun (dev, ba) =>
  obind (ba.proceed_u16 endianness) fun (ino, ba) =>
  obind (ba.proceed_u16 endianness) fun (mode, ba) =>
  obind (ba.proceed_u16 endianness) fun (u_id, ba) =>
  obind (ba.proceed_u16 endianness) fun (g_id, ba) =>
  obind (ba.proceed_u16 endianness) fun (nlink, ba) =>
  obind (ba.proceed_u16 endianness) fun (r_dev, ba) =>
  obind (ba.proceed_u16 endianness) fun (mtime_most, ba) =>
  obind (ba.proceed_u16 endianness) fun (mtime_least, ba) =>
  obind (ba.proceed_u16 endianness) fun (namesize, ba) =>
  obind (ba.proceed_u16 endianness) fun (filesize_most_byte, ba) =>
  obind (ba.proceed_u16 endianness) fun (filesize_least_byte, ba) =>
  let filesize := (filesize_most_byte <<< 16) ||| filesize_least_byte
  if namesize = 0 then none
  else
    obind (ba.proceed_str (namesize - 1)) fun (name, ba) =>
    let ba := ba.skip_bytes (namesize % 2 + 1)
    obind (ba.proceed_bytes filesize) fun (file, ba) =>
    obind (Mode.from_bits mode) fun mode =>
    let old_binary : Entry :=
      { dev := some dev
        devmajor := none
        devminor := none
        ino := ino
        mode := mode
        uid := u_id
        gid := g_id
        nlink := nlink
        rdev := some r_dev
        rdevmajor := none
        rdevminor := none
        mtime := (mtime_most <<< 16) ||| mtime_least
        name := name
        file := file }
    let ba := ba.skip_bytes (filesize % 2)
    some (old_binary, ba.into_inner)

/-- `Entry::interpret_as_portable_ascii` as it behaves on a 64-bit target,
where `filesize.try_into().unwrap()` (`u64 → usize`) always succeeds.
The 32-bit behaviour of that `unwrap` is modelled separately by
`portable_ascii_reaches_unwrap_overflow_on_32bit`. -/
def interpret_as_portable_ascii (binary : List Nat) : Option (Entry × List Nat) :=
  obind ((ByteArray.new binary).proceed_str 6) fun (magic, ba) =>
  if magic ≠ MAGIC_PORTABLE then none
  else
    obind (ba.proceed_str_into_octal_u32 6) fun (dev, ba) =>
    obind (ba.proceed_str_into_octal_u32 6) fun (ino, ba) =>
    obind (ba.proceed_str_into_octal_u32 6) fun (mode, ba) =>
    obind (ba.proceed_str_into_octal_u32 6) fun (u_id, ba) =>
    obind (ba.proceed_str_into_octal_u32 6) fun (g_id, ba) =>
    obind (ba.proceed_str_into_octal_u32 6) fun (nlink, ba) =>
    obind (ba.proceed_str_into_octal_u32 6) fun (r_dev, ba) =>
    obind (ba.proceed_str_into_octal_u64 11) fun (mtime, ba) =>
    obind (ba.proceed_str_into_octal_u32 6) fun (namesize, ba) =>
    obind (ba.proceed_str_into_octal_u64 11) fun (filesize, ba) =>
    if namesize = 0 then none
    else
      obind (ba.proceed_str (namesize - 1)) fun (name, ba) =>
      let ba := ba.skip_bytes 1
      obind (ba.proceed_bytes filesize) fun (file, ba) =>
      obind (Mode.from_bits mode) fun mode =>
      let portable_ascii : Entry :=
        { dev := some dev
          devmajor := none
          devminor := none
          ino := ino
          mode := mode
          uid := u_id
          gid := g_id
          nlink := nlink
          rdev := some r_dev
          rdevmajor := none
          rdevminor := none
          mtime := mtime
          name := name
          file := file }
      some (portable_ascii, ba.into_inner)

/-- `Entry::interpret_as_new_ascii_or_crc`.  The `try_into().unwrap()`
conversions here are `u32 → usize` and never fail on 32- or 64-bit
targets. -/
def interpret_as_new_ascii_or_crc (binary : List Nat) : Option (Entry × List Nat) :=
  obind ((ByteArray.new binary).proceed_str 6) fun (magic, ba) =>
  obind
    (if magic = MAGIC_CRC then some true
     else if magic = MAGIC_NEW_ASCII then some false
     else none) fun is_crc =>
  obind ba.proceed_str_into_hex fun (ino, ba) =>
  obind ba.proceed_str_into_hex fun (mode, ba) =>
  obind ba.proceed_str_into_hex fun (u_id, ba) =>
  obind ba.proceed_str_into_hex fun (g_id, ba) =>
  obind ba.proceed_str_into_hex fun (nlink, ba) =>
  obind ba.proceed_str_into_hex fun (mtime, ba) =>
  obind ba.proceed_str_into_hex fun (filesize, ba) =>
  obind ba.proceed_str_into_hex fun (devmajor, ba) =>
  obind ba.proceed_str_into_hex fun (devminor, ba) =>
  obind ba.proceed_str_into_hex fun (r_devmajor, ba) =>
  obind ba.proceed_str_into_hex fun (r_devminor, ba) =>
  obind ba.proceed_str_into_hex fun (namesize, ba) =>
  obind ba.proceed_str_into_hex fun (check, ba) =>
  if namesize = 0 then none
  else
    obind (ba.proceed_str (namesize - 1)) fun (name, ba) =>
    let ba := ba.skip_bytes 1
    let ba := ba.skip_to_next_multiple_of_four
    obind (ba.proceed_bytes filesize) fun (file, ba) =>
    obind (Mode.from_bits mode) fun mode =>
    let checksum := checksumOf file
    if is_crc && !mode.contains Mode.SYMBOLIK_LINK && decide (checksum ≠ check) then none
    else
      let new_ascii : Entry :=
        { ino := ino
          mode := mode
          uid := u_id
          gid := g_id
          nlink := nlink
          mtime := mtime
          dev := none
          devmajor := some devmajor
          devminor := some devminor
          rdev := none
          rdevmajor := some r_devmajor
          rdevminor := some r_devminor
          name := name
          file := file }
      let ba := ba.skip_to_next_multiple_of_four
      some (new_ascii, ba.into_inner)

/-- `Entry::new`: the three decoders tried in order, first success kept,
then the trailer-sentinel filter. -/
def new (binary : List Nat) : Option (Entry × List Nat) :=
  (((interpret_as_old_binary binary).orElse
      fun _ => interpret_as_portable_ascii binary).orElse
      fun _ => interpret_as_new_ascii_or_crc binary).filter
    fun p => p.1.name != TRAILER

end Entry

namespace Iter

/-- One call of `<Iter as Iterator>::next`: the state is the remaining
buffer (`self.0`); on the `None` paths the state is left unchanged, exactly
as the `?` operator leaves `self.0` untouched in the source. -/
def next (s : List Nat) : Option Entry × List Nat :=
  if s.isEmpty then (none, s)
  else
    match Entry.new s with
    | none => (none, s)
    | some (e, remaining) => (some e, remaining)

/-- The iterator state after `n` calls of `next` starting from buffer `s`. -/
def stateAfter (s : List Nat) : Nat → List Nat
  | 0 => s
  | n + 1 => (next (stateAfter s n)).2

end Iter

/-- `iter_files`: the public entry point seeds the iterator state with the
whole buffer. -/
def iter_files (cpio_binary : List Nat) : List Nat := cpio_binary

/-! ### Helper accessors used to state the characterisation theorems -/

/-- The byte of a buffer at an index (entries past the end read as 0; the
characterisations only use it at indices the decoder proved in bounds). -/
def byteAt (b : List Nat) (i : Nat) : Nat := b.getD i 0

/-- The sub-slice of `n` bytes starting at offset `i`. -/
def seg (b : List Nat) (i n : Nat) : List Nat := (b.drop i).take n

/-- The 16-bit field of the Old Binary header at byte offset `i`, under the
detected byte order. -/
def u16At (en : Endianness) (b : List Nat) (i : Nat) : Nat :=
  en.u8_array_to_u16 (byteAt b i, byteAt b (i + 1))

/-- The next multiple of 4 at or above `n` (the 4-byte alignment of the
New ASCII / CRC format). -/
def nextMul4 (n : Nat) : Nat := n + (4 - n % 4) % 4

/-! ### Characterisations of the cursor operations -/

theorem obind_eq_some {α β : Type} {o : Option α} {f : α → Option β} {z : β} :
    obind o f = some z ↔ ∃ a, o = some a ∧ f a = some z := by
  cases o <;> simp [obind]

theorem byteAt_drop (b : List Nat) (k i : Nat) :
    byteAt (b.drop k) i = byteAt b (k + i) := by
  simp [byteAt, List.getD_eq_getElem?_getD, List.getElem?_drop]

theorem ByteArray.proceed_byte_eq_some {ba : ByteArray} {p : Nat × ByteArray} :
    ba.proceed_byte = some p ↔
      p = (byteAt ba.binary 0, ⟨ba.binary.drop 1, ba.current + 1⟩) ∧
        1 ≤ ba.binary.length := by
  obtain ⟨l, c⟩ := ba
  cases l <;> simp [proceed_byte, skip_bytes, byteAt, eq_comm]

theorem ByteArray.proceed_bytes_eq_some {ba : ByteArray} {n : Nat} {p : List Nat × ByteArray} :
    ba.proceed_bytes n = some p ↔
      p = (ba.binary.take n, ⟨ba.binary.drop n, ba.current + n⟩) ∧
        n ≤ ba.binary.length := by
  obtain ⟨l, c⟩ := ba
  simp only [proceed_bytes, skip_bytes]
  split <;> simp_all [eq_comm]

theorem ByteArray.proceed_str_eq_some {ba : ByteArray} {n : Nat} {p : List Nat × ByteArray} :
    ba.proceed_str n = some p ↔
      p = (ba.binary.take n, ⟨ba.binary.drop n, ba.current + n⟩) ∧
        n ≤ ba.binary.length ∧ utf8Valid (ba.binary.take n) = true := by
  simp only [proceed_str, Option.bind_eq_some, proceed_bytes_eq_some]
  constructor
  · rintro ⟨a, ⟨rfl, hn⟩, ha⟩
    split at ha
    · cases ha
      exact ⟨rfl, hn, by assumption⟩
    · cases ha
  · rintro ⟨rfl, hn, hv⟩
    exact ⟨_, ⟨rfl, hn⟩, by simp [hv]⟩

theorem ByteArray.proceed_str_into_octal_u32_eq_some {ba : ByteArray} {n : Nat}
    {p : Nat × ByteArray} :
    ba.proceed_str_into_octal_u32 n = some p ↔
      p = ((from_str_radix 8 (2 ^ 32) (ba.binary.take n)).getD 0,
           ⟨ba.binary.drop n, ba.current + n⟩) ∧
        n ≤ ba.binary.length ∧ utf8Valid (ba.binary.take n) = true ∧
        (from_str_radix 8 (2 ^ 32) (ba.binary.take n)).isSome = true := by
  simp only [proceed_str_into_octal_u32, Option.bind_eq_some, proceed_str_eq_some,
    Option.map_eq_some']
  constructor
  · rintro ⟨a, ⟨rfl, hn, hv⟩, w, hw, rfl⟩
    rw [show from_str_radix _ _ _ = some w from hw]
    exact ⟨rfl, hn, hv, rfl⟩
  · rintro ⟨rfl, hn, hv, hs⟩
    refine ⟨_, ⟨rfl, hn, hv⟩, (from_str_radix 8 (2 ^ 32) (ba.binary.take n)).getD 0, ?_, rfl⟩
    cases hfs : from_str_radix 8 (2 ^ 32) (ba.binary.take n) with
    | none => rw [hfs] at hs; cases hs
    | some w => simp [hfs]

theorem ByteArray.proceed_str_into_octal_u64_eq_some {ba : ByteArray} {n : Nat}
    {p : Nat × ByteArray} :
    ba.proceed_str_into_octal_u64 n = some p ↔
      p = ((from_str_radix 8 (2 ^ 64) (ba.binary.take n)).getD 0,
           ⟨ba.binary.drop n, ba.current + n⟩) ∧
        n ≤ ba.binary.length ∧ utf8Valid (ba.binary.take n) = true ∧
        (from_str_radix 8 (2 ^ 64) (ba.binary.take n)).isSome = true := by
  simp only [proceed_str_into_octal_u64, Option.bind_eq_some, proceed_str_eq_some,
    Option.map_eq_some']
  constructor
  · rintro ⟨a, ⟨rfl, hn, hv⟩, w, hw, rfl⟩
    rw [show from_str_radix _ _ _ = some w from hw]
    exact ⟨rfl, hn, hv, rfl⟩
  · rintro ⟨rfl, hn, hv, hs⟩
    refine ⟨_, ⟨rfl, hn, hv⟩, (from_str_radix 8 (2 ^ 64) (ba.binary.take n)).getD 0, ?_, rfl⟩
    cases hfs : from_str_radix 8 (2 ^ 64) (ba.binary.take n) with
    | none => rw [hfs] at hs; cases hs
    | some w => simp [hfs]

theorem ByteArray.proceed_str_into_hex_eq_some {ba : ByteArray} {p : Nat × ByteArray} :
    ba.proceed_str_into_hex = some p ↔
      p = ((from_str_radix 16 (2 ^ 32) (ba.binary.take 8)).getD 0,
           ⟨ba.binary.drop 8, ba.current + 8⟩) ∧
        8 ≤ ba.binary.length ∧ utf8Valid (ba.binary.take 8) = true ∧
        (from_str_radix 16 (2 ^ 32) (ba.binary.take 8)).isSome = true := by
  simp only [proceed_str_into_hex, Option.bind_eq_some, proceed_str_eq_some,
    Option.map_eq_some']
  constructor
  · rintro ⟨a, ⟨rfl, hn, hv⟩, w, hw, rfl⟩
    rw [show from_str_radix _ _ _ = some w from hw]
    exact ⟨rfl, hn, hv, rfl⟩
  · rintro ⟨rfl, hn, hv, hs⟩
    refine ⟨_, ⟨rfl, hn, hv⟩, (from_str_radix 16 (2 ^ 32) (ba.binary.take 8)).getD 0, ?_, rfl⟩
    cases hfs : from_str_radix 16 (2 ^ 32) (ba.binary.take 8) with
    | none => rw [hfs] at hs; cases hs
    | some w => simp [hfs]

theorem ByteArray.proceed_u16_eq_some {ba : ByteArray} {en : Endianness}
    {p : Nat × ByteArray} :
    ba.proceed_u16 en = some p ↔
      p = (en.u8_array_to_u16 (byteAt ba.binary 0, byteAt ba.binary 1),
           ⟨ba.binary.drop 2, ba.current + 2⟩) ∧
        2 ≤ ba.binary.length := by
  obtain ⟨l, c⟩ := ba
  match l with
  | [] => simp [proceed_u16, proceed_byte]
  | [b0] => simp [proceed_u16, proceed_byte, skip_bytes]
  | b0 :: b1 :: t =>
    simp [proceed_u16, proceed_byte, skip_bytes, byteAt, eq_comm]

/-! ### Characterisation of the Old Binary decoder -/

/-- Byte-order detection of the Old Binary decoder. -/
def oldDetect (b : List Nat) : Endianness → Prop
  | .Big => Endianness.Big.u8_array_to_u16 (byteAt b 0, byteAt b 1) = 0o070707
  | .Little =>
      Endianness.Big.u8_array_to_u16 (byteAt b 0, byteAt b 1) ≠ 0o070707 ∧
      Endianness.Little.u8_array_to_u16 (byteAt b 0, byteAt b 1) = 0o070707

/-- The file size the Old Binary decoder reads: two 16-bit halves at
offsets 22 and 24, `(most <<< 16) ||| least`. -/
def oldFs (en : Endianness) (b : List Nat) : Nat :=
  (u16At en b 22) <<< 16 ||| u16At en b 24

theorem Mode.from_bits_eq_some {v : Nat} {m : Mode} :
    Mode.from_bits v = some m ↔ m = ⟨v⟩ ∧ v &&& (0xFFFFFFFF ^^^ modeAllBits) = 0 := by
  unfold Mode.from_bits
  split <;> simp_all [eq_comm]

set_option maxRecDepth 4000 in
theorem interpret_as_old_binary_eq_some {b : List Nat} {e : Entry} {r : List Nat}
    (h : Entry.interpret_as_old_binary b = some (e, r)) :
    ∃ en, oldDetect b en ∧
      26 ≤ b.length ∧
      u16At en b 20 ≠ 0 ∧
      u16At en b 20 - 1 ≤ b.length - 26 ∧
      utf8Valid (seg b 26 (u16At en b 20 - 1)) = true ∧
      oldFs en b ≤ b.length - (26 + (u16At en b 20 - 1) + (u16At en b 20 % 2 + 1)) ∧
      Mode.from_bits (u16At en b 6) = some ⟨u16At en b 6⟩ ∧
      e = { dev := some (u16At en b 2), devmajor := none, devminor := none,
            ino := u16At en b 4,
            mode := ⟨u16At en b 6⟩,
            uid := u16At en b 8, gid := u16At en b 10, nlink := u16At en b 12,
            rdev := some (u16At en b 14), rdevmajor := none, rdevminor := none,
            mtime := (u16At en b 16) <<< 16 ||| u16At en b 18,
            name := seg b 26 (u16At en b 20 - 1),
            file := seg b (26 + (u16At en b 20 - 1) + (u16At en b 20 % 2 + 1)) (oldFs en b) } ∧
      r = b.drop (26 + (u16At en b 20 - 1) + (u16At en b 20 % 2 + 1) + oldFs en b + oldFs en b % 2) := by
  simp only [Entry.interpret_as_old_binary, obind_eq_some, ByteArray.new,
    ByteArray.proceed_byte_eq_some, ByteArray.proceed_u16_eq_some,
    ByteArray.proceed_str_eq_some, ByteArray.proceed_bytes_eq_some,
    ByteArray.skip_bytes, ByteArray.into_inner,
    and_assoc, exists_eq_left, List.drop_drop, List.length_drop,
    byteAt_drop, Nat.reduceAdd, Option.some.injEq, Prod.mk.injEq] at h
  obtain ⟨h1, h2, en, hen, h⟩ := h
  have hdet : oldDetect b en := by
    by_cases hBE : Endianness.Big.u8_array_to_u16 (byteAt b 0, byteAt b 1) = 29127
    · rw [if_pos hBE] at hen
      injection hen with hen
      subst hen
      exact hBE
    · rw [if_neg hBE] at hen
      by_cases hLE : Endianness.Little.u8_array_to_u16 (byteAt b 0, byteAt b 1) = 29127
      · rw [if_pos hLE] at hen
        injection hen with hen
        subst hen
        exact ⟨hBE, hLE⟩
      · rw [if_neg hLE] at hen
        exact Option.noConfusion hen
  clear hen
  obtain ⟨l3, l4, l5, l6, l7, l8, l9, l10, l11, l12, l13, l14, h⟩ := h
  split at h
  · exact Option.noConfusion h
  · simp only [obind_eq_some, ByteArray.proceed_str_eq_some, ByteArray.proceed_bytes_eq_some,
      ByteArray.skip_bytes, ByteArray.into_inner, and_assoc, exists_eq_left,
      List.drop_drop, List.length_drop, byteAt_drop, Nat.reduceAdd,
      Option.some.injEq, Prod.mk.injEq] at h
    obtain ⟨hn1, hvalid, hfs, md, hmd, he, hr⟩ := h
    rw [Mode.from_bits_eq_some] at hmd
    obtain ⟨rfl, hmask⟩ := hmd
    rw [Nat.sub_sub] at hfs
    refine ⟨en, hdet, by omega, by assumption, by exact hn1, hvalid, by exact hfs, ?_, ?_, ?_⟩
    · have hmask2 : u16At en b 6 &&& (0xFFFFFFFF ^^^ modeAllBits) = 0 := hmask
      simp [Mode.from_bits, hmask2]
    · exact he.symm
    · rw [show 26 + (u16At en b 20 - 1) + (u16At en b 20 % 2 + 1) + oldFs en b +
            oldFs en b % 2 =
          26 + (u16At en b 20 - 1) + (u16At en b 20 % 2 + 1 + oldFs en b + oldFs en b % 2)
          from by omega]
      exact hr.symm

/-! ### Characterisation of the Portable ASCII decoder -/

theorem isSome_eq_some_getD {o : Option Nat} (h : o.isSome = true) : o = some (o.getD 0) := by
  cases o
  · cases h
  · rfl

set_option maxRecDepth 8000 in
theorem interpret_as_portable_ascii_eq_some {b : List Nat} {e : Entry} {r : List Nat}
    (h : Entry.interpret_as_portable_ascii b = some (e, r)) :
    ∃ dev ino modev u_id g_id nlink r_dev mtime namesize filesize,
      76 ≤ b.length ∧
      seg b 0 6 = MAGIC_PORTABLE ∧
      from_str_radix 8 (2 ^ 32) (seg b 6 6) = some dev ∧
      from_str_radix 8 (2 ^ 32) (seg b 12 6) = some ino ∧
      from_str_radix 8 (2 ^ 32) (seg b 18 6) = some modev ∧
      from_str_radix 8 (2 ^ 32) (seg b 24 6) = some u_id ∧
      from_str_radix 8 (2 ^ 32) (seg b 30 6) = some g_id ∧
      from_str_radix 8 (2 ^ 32) (seg b 36 6) = some nlink ∧
      from_str_radix 8 (2 ^ 32) (seg b 42 6) = some r_dev ∧
      from_str_radix 8 (2 ^ 64) (seg b 48 11) = some mtime ∧
      from_str_radix 8 (2 ^ 32) (seg b 59 6) = some namesize ∧
      from_str_radix 8 (2 ^ 64) (seg b 65 11) = some filesize ∧
      namesize ≠ 0 ∧
      namesize - 1 ≤ b.length - 76 ∧
      utf8Valid (seg b 76 (namesize - 1)) = true ∧
      filesize ≤ b.length - (76 + (namesize - 1)) - 1 ∧
      Mode.from_bits modev = some ⟨modev⟩ ∧
      e = { dev := some dev, devmajor := none, devminor := none, ino := ino,
            mode := ⟨modev⟩, uid := u_id, gid := g_id, nlink := nlink,
            rdev := some r_dev, rdevmajor := none, rdevminor := none,
            mtime := mtime,
            name := seg b 76 (namesize - 1),
            file := seg b (76 + (namesize - 1) + 1) filesize } ∧
      r = b.drop (76 + (namesize - 1) + 1 + filesize) := by
  simp only [Entry.interpret_as_portable_ascii, obind_eq_some, ByteArray.new,
    ByteArray.proceed_str_eq_some, ByteArray.proceed_str_into_octal_u32_eq_some,
    ByteArray.proceed_str_into_octal_u64_eq_some, ByteArray.proceed_bytes_eq_some,
    ByteArray.skip_bytes, ByteArray.into_inner,
    and_assoc, exists_eq_left, List.drop_drop, List.length_drop,
    Nat.reduceAdd, Option.some.injEq, Prod.mk.injEq, ne_eq] at h
  obtain ⟨hl6, hv6, h⟩ := h
  split at h
  · exact Option.noConfusion h
  · rename_i hmagic
    rw [not_not] at hmagic
    simp only [obind_eq_some, ByteArray.proceed_str_eq_some,
      ByteArray.proceed_str_into_octal_u32_eq_some,
      ByteArray.proceed_str_into_octal_u64_eq_some, ByteArray.proceed_bytes_eq_some,
      ByteArray.skip_bytes, ByteArray.into_inner, and_assoc, exists_eq_left,
      List.drop_drop, List.length_drop, Nat.reduceAdd,
      Option.some.injEq, Prod.mk.injEq] at h
    obtain ⟨q1, q2, q3, q4, q5, q6, q7, q8, q9, q10, q11, q12, q13, q14, q15,
      q16, q17, q18, q19, q20, q21, q22, q23, q24, q25, q26, q27, q28, q29, q30, h⟩ := h
    split at h
    · exact Option.noConfusion h
    · rename_i hns
      simp only [obind_eq_some, ByteArray.proceed_str_eq_some, ByteArray.proceed_bytes_eq_some,
        ByteArray.skip_bytes, ByteArray.into_inner, and_assoc, exists_eq_left,
        List.drop_drop, List.length_drop, Nat.reduceAdd,
        Option.some.injEq, Prod.mk.injEq] at h
      obtain ⟨hn1, hvalid, hfs, md, hmd, he, hr⟩ := h
      rw [Mode.from_bits_eq_some] at hmd
      obtain ⟨rfl, hmask⟩ := hmd
      refine ⟨_, _, _, _, _, _, _, _, _, _, by omega, hmagic,
        isSome_eq_some_getD q3, isSome_eq_some_getD q6, isSome_eq_some_getD q9,
        isSome_eq_some_getD q12, isSome_eq_some_getD q15, isSome_eq_some_getD q18,
        isSome_eq_some_getD q21, isSome_eq_some_getD q24, isSome_eq_some_getD q27,
        isSome_eq_some_getD q30, hns, by exact hn1, hvalid, by exact hfs, ?_, ?_, ?_⟩
      · have hmask2 : (from_str_radix 8 4294967296 (seg b 18 6)).getD 0 &&&
            (4294967295 ^^^ modeAllBits) = 0 := hmask
        simp [Mode.from_bits, hmask2]
      · exact he.symm
      · rw [show 76 + ((from_str_radix 8 (2 ^ 32) (seg b 59 6)).getD 0 - 1) + 1 +
              (from_str_radix 8 (2 ^ 64) (seg b 65 11)).getD 0 =
            76 + ((from_str_radix 8 (2 ^ 32) (seg b 59 6)).getD 0 - 1) +
              (1 + (from_str_radix 8 (2 ^ 64) (seg b 65 11)).getD 0)
            from by omega]
        exact hr.symm

/-! ### Characterisation of the New ASCII / CRC decoder -/

/-- The value of an 8-character hex header field at byte offset `i`. -/
def hexVal (b : List Nat) (i : Nat) : Nat :=
  (from_str_radix 16 (2 ^ 32) (seg b i 8)).getD 0

/-- The 8-character hex header field at byte offset `i` parses. -/
def hexOk (b : List Nat) (i : Nat) : Prop :=
  utf8Valid (seg b i 8) = true ∧ (from_str_radix 16 (2 ^ 32) (seg b i 8)).isSome = true

/-- The namesize field of a New ASCII / CRC header. -/
def newNs (b : List Nat) : Nat := hexVal b 94

/-- The filesize field of a New ASCII / CRC header. -/
def newFs (b : List Nat) : Nat := hexVal b 54

/-- The offset at which the content of a New ASCII / CRC entry starts:
the 110-byte header, the name, its null terminator, then padding to the
next 4-byte boundary (written in the exact shape the cursor computes;
`newCs_eq` restates it through `nextMul4`). -/
def newCs (b : List Nat) : Nat :=
  110 + (newNs b - 1) + (1 + (4 - (110 + (newNs b - 1) + 1) % 4) % 4)

/-- The offset at which the bytes of the following entry start: content
end padded to the next 4-byte boundary (written in the exact shape the
cursor computes; `newEnd_eq` restates it through `nextMul4`). -/
def newEnd (b : List Nat) : Nat :=
  110 + (newNs b - 1) + (1 + (4 - (110 + (newNs b - 1) + 1) % 4) % 4 + newFs b +
    (4 - (110 + (newNs b - 1) + 1 + (4 - (110 + (newNs b - 1) + 1) % 4) % 4 +
      newFs b) % 4) % 4)

theorem newCs_eq (b : List Nat) : newCs b = nextMul4 (110 + (newNs b - 1) + 1) := by
  unfold newCs nextMul4
  omega

theorem newEnd_eq (b : List Nat) : newEnd b = nextMul4 (newCs b + newFs b) := by
  unfold newEnd newCs nextMul4
  omega

/-- Everything `interpret_as_new_ascii_or_crc` checks and produces. -/
def NewShape (b : List Nat) (is_crc : Bool) (e : Entry) (r : List Nat) : Prop :=
  110 ≤ b.length ∧
  utf8Valid (seg b 0 6) = true ∧
  ((seg b 0 6 = MAGIC_CRC ∧ is_crc = true) ∨
   (seg b 0 6 ≠ MAGIC_CRC ∧ seg b 0 6 = MAGIC_NEW_ASCII ∧ is_crc = false)) ∧
  hexOk b 6 ∧ hexOk b 14 ∧ hexOk b 22 ∧ hexOk b 30 ∧ hexOk b 38 ∧ hexOk b 46 ∧
  hexOk b 54 ∧ hexOk b 62 ∧ hexOk b 70 ∧ hexOk b 78 ∧ hexOk b 86 ∧ hexOk b 94 ∧
  hexOk b 102 ∧
  newNs b ≠ 0 ∧
  newNs b - 1 ≤ b.length - 110 ∧
  utf8Valid (seg b 110 (newNs b - 1)) = true ∧
  newFs b ≤ b.length - (110 + (newNs b - 1)) - (1 + (4 - (110 + (newNs b - 1) + 1) % 4) % 4) ∧
  hexVal b 14 &&& (0xFFFFFFFF ^^^ modeAllBits) = 0 ∧
  (is_crc = true → (⟨hexVal b 14⟩ : Mode).contains Mode.SYMBOLIK_LINK = false →
    checksumOf (seg b (newCs b) (newFs b)) = hexVal b 102) ∧
  e = { ino := hexVal b 6, mode := ⟨hexVal b 14⟩, uid := hexVal b 22, gid := hexVal b 30,
        nlink := hexVal b 38, mtime := hexVal b 46, dev := none,
        devmajor := some (hexVal b 62), devminor := some (hexVal b 70),
        rdev := none, rdevmajor := some (hexVal b 78), rdevminor := some (hexVal b 86),
        name := seg b 110 (newNs b - 1), file := seg b (newCs b) (newFs b) } ∧
  r = b.drop (newEnd b)

set_option maxRecDepth 8000 in
theorem interpret_as_new_ascii_or_crc_eq_some {b : List Nat} {e : Entry} {r : List Nat}
    (h : Entry.interpret_as_new_ascii_or_crc b = some (e, r)) :
    ∃ is_crc, NewShape b is_crc e r := by
  simp only [Entry.interpret_as_new_ascii_or_crc, obind_eq_some, ByteArray.new,
    ByteArray.proceed_str_eq_some, ByteArray.proceed_str_into_hex_eq_some,
    ByteArray.proceed_bytes_eq_some,
    ByteArray.skip_bytes, ByteArray.skip_to_next_multiple_of_four, ByteArray.into_inner,
    and_assoc, exists_eq_left, List.drop_drop, List.length_drop,
    Nat.reduceAdd, Option.some.injEq, Prod.mk.injEq, ne_eq] at h
  obtain ⟨hl6, hv6, crc, hcrc, q1, q2, q3, q4, q5, q6, q7, q8, q9, q10, q11, q12, q13,
    q14, q15, q16, q17, q18, q19, q20, q21, q22, q23, q24, q25, q26, q27, q28, q29, q30,
    q31, q32, q33, q34, q35, q36, q37, q38, q39, h⟩ := h
  split at h
  · exact Option.noConfusion h
  · rename_i hns
    simp only [obind_eq_some, ByteArray.proceed_str_eq_some, ByteArray.proceed_bytes_eq_some,
      ByteArray.skip_bytes, ByteArray.skip_to_next_multiple_of_four, ByteArray.into_inner,
      and_assoc, exists_eq_left, List.drop_drop, List.length_drop,
      Nat.reduceAdd, Option.some.injEq, Prod.mk.injEq] at h
    obtain ⟨hn1, hnv, hfs, md, hmd, h⟩ := h
    split at h
    · exact Option.noConfusion h
    · rename_i hguard
      simp only [Option.some.injEq, Prod.mk.injEq] at h
      obtain ⟨he, hr⟩ := h
      rw [Mode.from_bits_eq_some] at hmd
      obtain ⟨rfl, hmask⟩ := hmd
      have hmagic : (seg b 0 6 = MAGIC_CRC ∧ crc = true) ∨
          (seg b 0 6 ≠ MAGIC_CRC ∧ seg b 0 6 = MAGIC_NEW_ASCII ∧ crc = false) := by
        by_cases hC : List.take 6 b = MAGIC_CRC
        · rw [if_pos hC] at hcrc
          injection hcrc with hcrc
          exact Or.inl ⟨hC, hcrc.symm⟩
        · rw [if_neg hC] at hcrc
          by_cases hN : List.take 6 b = MAGIC_NEW_ASCII
          · rw [if_pos hN] at hcrc
            injection hcrc with hcrc
            exact Or.inr ⟨hC, hN, hcrc.symm⟩
          · rw [if_neg hN] at hcrc
            exact Option.noConfusion hcrc
      have hguardB : (crc && !(Mode.contains ⟨hexVal b 14⟩ Mode.SYMBOLIK_LINK) &&
          decide (checksumOf (seg b (newCs b) (newFs b)) ≠ hexVal b 102)) = false := by
        cases hb : (crc && !(Mode.contains ⟨hexVal b 14⟩ Mode.SYMBOLIK_LINK) &&
            decide (checksumOf (seg b (newCs b) (newFs b)) ≠ hexVal b 102))
        · rfl
        · exact absurd hb hguard
      refine ⟨crc, by omega, hv6, hmagic, ⟨q2, q3⟩, ⟨q5, q6⟩, ⟨q8, q9⟩, ⟨q11, q12⟩,
        ⟨q14, q15⟩, ⟨q17, q18⟩, ⟨q20, q21⟩, ⟨q23, q24⟩, ⟨q26, q27⟩, ⟨q29, q30⟩,
        ⟨q32, q33⟩, ⟨q35, q36⟩, ⟨q38, q39⟩, hns, by exact hn1, hnv, by exact hfs,
        hmask, ?_, ?_, ?_⟩
      · intro h1 h2
        rw [h1, h2] at hguardB
        simpa using hguardB
      · exact he.symm
      · exact hr.symm


set_option maxRecDepth 8000 in
theorem interpret_as_new_ascii_or_crc_of_shape {b : List Nat} {is_crc : Bool}
    {e : Entry} {r : List Nat} (hsh : NewShape b is_crc e r) :
    Entry.interpret_as_new_ascii_or_crc b = some (e, r) := by
  obtain ⟨hl, hv6, hmagic, ⟨w2, w3⟩, ⟨w5, w6⟩, ⟨w8, w9⟩, ⟨w11, w12⟩, ⟨w14, w15⟩,
    ⟨w17, w18⟩, ⟨w20, w21⟩, ⟨w23, w24⟩, ⟨w26, w27⟩, ⟨w29, w30⟩, ⟨w32, w33⟩,
    ⟨w35, w36⟩, ⟨w38, w39⟩, hns, hn1, hnv, hfs, hmask, hck, he, hr⟩ := hsh
  subst he
  subst hr
  simp only [Entry.interpret_as_new_ascii_or_crc, obind_eq_some, ByteArray.new,
    ByteArray.proceed_str_eq_some, ByteArray.proceed_str_into_hex_eq_some,
    ByteArray.proceed_bytes_eq_some,
    ByteArray.skip_bytes, ByteArray.skip_to_next_multiple_of_four, ByteArray.into_inner,
    and_assoc, exists_eq_left, List.drop_drop, List.length_drop,
    Nat.reduceAdd, Option.some.injEq, Prod.mk.injEq, ne_eq]
  rcases hmagic with ⟨hm, hcrc⟩ | ⟨hmne, hm, hcrc⟩ <;> subst hcrc
  · have hm2 : List.take 6 b = MAGIC_CRC := hm
    refine ⟨by omega, by exact hv6, true, by rw [if_pos hm2],
      by omega, by exact w2, by exact w3,
      by omega, by exact w5, by exact w6,
      by omega, by exact w8, by exact w9,
      by omega, by exact w11, by exact w12,
      by omega, by exact w14, by exact w15,
      by omega, by exact w17, by exact w18,
      by omega, by exact w20, by exact w21,
      by omega, by exact w23, by exact w24,
      by omega, by exact w26, by exact w27,
      by omega, by exact w29, by exact w30,
      by omega, by exact w32, by exact w33,
      by omega, by exact w35, by exact w36,
      by omega, by exact w38, by exact w39,
      ?_⟩
    have hns2 : ¬((from_str_radix 16 (2 ^ 32) (List.take 8 (List.drop 94 b))).getD 0 = 0) := hns
    rw [if_neg hns2]
    simp only [obind_eq_some, ByteArray.proceed_str_eq_some, ByteArray.proceed_bytes_eq_some,
      ByteArray.skip_bytes, ByteArray.skip_to_next_multiple_of_four, ByteArray.into_inner,
      and_assoc, exists_eq_left, List.drop_drop, List.length_drop,
      Nat.reduceAdd, Option.some.injEq, Prod.mk.injEq]
    refine ⟨by exact hn1, by exact hnv, by exact hfs, ⟨hexVal b 14⟩,
      Mode.from_bits_eq_some.mpr ⟨rfl, by exact hmask⟩, ?_⟩
    have hg : (true && !(Mode.contains ⟨hexVal b 14⟩ Mode.SYMBOLIK_LINK) &&
        decide (checksumOf (seg b (newCs b) (newFs b)) ≠ hexVal b 102)) = false := by
      cases hcon : Mode.contains ⟨hexVal b 14⟩ Mode.SYMBOLIK_LINK
      · have hcksum := hck rfl hcon
        simp [hcksum]
      · simp
    split
    · rename_i hcond
      have hcond2 : (true && !(Mode.contains ⟨hexVal b 14⟩ Mode.SYMBOLIK_LINK) &&
          decide (checksumOf (seg b (newCs b) (newFs b)) ≠ hexVal b 102)) = true := hcond
      rw [hg] at hcond2
      exact Bool.noConfusion hcond2
    · rfl
  · have hmne2 : ¬(List.take 6 b = MAGIC_CRC) := hmne
    have hm2 : List.take 6 b = MAGIC_NEW_ASCII := hm
    refine ⟨by omega, by exact hv6, false, by rw [if_neg hmne2, if_pos hm2],
      by omega, by exact w2, by exact w3,
      by omega, by exact w5, by exact w6,
      by omega, by exact w8, by exact w9,
      by omega, by exact w11, by exact w12,
      by omega, by exact w14, by exact w15,
      by omega, by exact w17, by exact w18,
      by omega, by exact w20, by exact w21,
      by omega, by exact w23, by exact w24,
      by omega, by exact w26, by exact w27,
      by omega, by exact w29, by exact w30,
      by omega, by exact w32, by exact w33,
      by omega, by exact w35, by exact w36,
      by omega, by exact w38, by exact w39,
      ?_⟩
    have hns2 : ¬((from_str_radix 16 (2 ^ 32) (List.take 8 (List.drop 94 b))).getD 0 = 0) := hns
    rw [if_neg hns2]
    simp only [obind_eq_some, ByteArray.proceed_str_eq_some, ByteArray.proceed_bytes_eq_some,
      ByteArray.skip_bytes, ByteArray.skip_to_next_multiple_of_four, ByteArray.into_inner,
      and_assoc, exists_eq_left, List.drop_drop, List.length_drop,
      Nat.reduceAdd, Option.some.injEq, Prod.mk.injEq]
    refine ⟨by exact hn1, by exact hnv, by exact hfs, ⟨hexVal b 14⟩,
      Mode.from_bits_eq_some.mpr ⟨rfl, by exact hmask⟩, ?_⟩
    split
    · rename_i hcond
      have hcond2 : (false && !(Mode.contains ⟨hexVal b 14⟩ Mode.SYMBOLIK_LINK) &&
          decide (checksumOf (seg b (newCs b) (newFs b)) ≠ hexVal b 102)) = true := hcond
      simp at hcond2
    · rfl


/-! ### List and checksum helpers -/

theorem seg_set_of_ge {b : List Nat} {p y i n : Nat} (h : i + n ≤ p) :
    seg (b.set p y) i n = seg b i n := by
  apply List.ext_getElem?
  intro j
  simp only [seg, List.getElem?_take, List.getElem?_drop]
  split
  · rename_i hj
    rw [List.getElem?_set_ne (by omega)]
  · rfl

theorem drop_set_of_lt {b : List Nat} {p y n : Nat} (h : p < n) :
    (b.set p y).drop n = b.drop n := by
  apply List.ext_getElem?
  intro j
  simp only [List.getElem?_drop]
  rw [List.getElem?_set_ne (by omega)]

theorem seg_set_inside {b : List Nat} {p y i n : Nat} (h1 : i ≤ p) (h2 : p < i + n) :
    seg (b.set p y) i n = (seg b i n).set (p - i) y := by
  apply List.ext_getElem?
  intro j
  by_cases hj : j < n
  · by_cases hjp : j = p - i
    · subst hjp
      by_cases hpl : p < b.length
      · simp only [seg, List.getElem?_take, if_pos hj, List.getElem?_drop,
          show i + (p - i) = p from by omega]
        rw [List.getElem?_set_self hpl, List.getElem?_set_self
          (by simp only [List.length_take, List.length_drop]; omega)]
      · rw [List.set_eq_of_length_le (by omega),
          List.set_eq_of_length_le
            (by simp only [seg, List.length_take, List.length_drop]; omega)]
    · have : i + j ≠ p := by omega
      simp only [seg, List.getElem?_take, if_pos hj, List.getElem?_drop]
      rw [List.getElem?_set_ne (by omega), List.getElem?_set_ne (by omega),
        List.getElem?_take, if_pos hj, List.getElem?_drop]
  · have hlen1 : (seg (b.set p y) i n).length ≤ j := by
      simp [seg, List.length_take, List.length_drop]
      omega
    have hlen2 : (((seg b i n).set (p - i) y)).length ≤ j := by
      simp [List.length_set, seg, List.length_take, List.length_drop]
      omega
    rw [List.getElem?_eq_none hlen1, List.getElem?_eq_none hlen2]

theorem byteAt_set_ne {b : List Nat} {p y i : Nat} (h : i ≠ p) :
    byteAt (b.set p y) i = byteAt b i := by
  simp only [byteAt, List.getD_eq_getElem?_getD]
  rw [List.getElem?_set_ne (Ne.symm h)]

theorem byteAt_seg {b : List Nat} {i n j : Nat} (h : j < n) :
    byteAt (seg b i n) j = byteAt b (i + j) := by
  simp only [byteAt, List.getD_eq_getElem?_getD, seg, List.getElem?_take, if_pos h,
    List.getElem?_drop]

theorem length_seg {b : List Nat} {i n : Nat} (h : n ≤ b.length - i) :
    (seg b i n).length = n := by
  simp [seg, List.length_take, List.length_drop]
  omega

theorem foldl_checksum_aux (l : List Nat) :
    ∀ acc : Nat, l.foldl (fun a x => (a + x) % 2 ^ 32) (acc % 2 ^ 32) = (acc + l.sum) % 2 ^ 32 := by
  induction l with
  | nil => intro acc; simp
  | cons x t ih =>
    intro acc
    have h1 : (acc % 2 ^ 32 + x) % 2 ^ 32 = (acc + x) % 2 ^ 32 := Nat.mod_add_mod acc (2 ^ 32) x
    simp only [List.foldl_cons, h1]
    rw [ih (acc + x)]
    simp [List.sum_cons, Nat.add_assoc]

theorem checksumOf_eq_sum_mod (l : List Nat) : checksumOf l = l.sum % 2 ^ 32 := by
  have := foldl_checksum_aux l 0
  simpa [checksumOf] using this

theorem sum_set (l : List Nat) (i y : Nat) (h : i < l.length) :
    (l.set i y).sum + l.getD i 0 = l.sum + y := by
  induction l generalizing i with
  | nil => simp at h
  | cons x t ih =>
    cases i with
    | zero => simp [List.sum_cons, byteAt]; omega
    | succ i =>
      simp only [List.set_cons_succ, List.sum_cons, List.getD_cons_succ]
      have := ih i (by simpa using Nat.lt_of_succ_lt_succ (by simpa using h))
      omega

theorem checksum_set_ne {l : List Nat} {i y : Nat} (hi : i < l.length)
    (hx : l.getD i 0 < 256) (hy : y < 256) (hne : y ≠ l.getD i 0) :
    checksumOf (l.set i y) ≠ checksumOf l := by
  intro hEq
  rw [checksumOf_eq_sum_mod, checksumOf_eq_sum_mod] at hEq
  have hsum := sum_set l i y hi
  have hM : (2 : Nat) ^ 32 = 4294967296 := by norm_num
  rw [hM] at hEq
  omega


/-! ### Magic detection predicates and decline lemmas -/

/-- The Old Binary magic check: the first two bytes read as `0o070707` in
big- or little-endian order. -/
def oldMagicOk (b : List Nat) : Prop :=
  Endianness.Big.u8_array_to_u16 (byteAt b 0, byteAt b 1) = 0o070707 ∨
  Endianness.Little.u8_array_to_u16 (byteAt b 0, byteAt b 1) = 0o070707

/-- The Portable ASCII magic check: the first six bytes are `070707`. -/
def portableMagicOk (b : List Nat) : Prop := seg b 0 6 = MAGIC_PORTABLE

/-- The New ASCII / CRC magic check: the first six bytes are `070701` or
`070702`. -/
def newMagicOk (b : List Nat) : Prop :=
  seg b 0 6 = MAGIC_NEW_ASCII ∨ seg b 0 6 = MAGIC_CRC

theorem oldDetect_unique {b : List Nat} {en en' : Endianness}
    (h : oldDetect b en) (h' : oldDetect b en') : en = en' := by
  cases en <;> cases en' <;> simp_all [oldDetect]

theorem oldMagicOk_of_detect {b : List Nat} {en : Endianness} (h : oldDetect b en) :
    oldMagicOk b := by
  cases en
  · exact Or.inl h
  · exact Or.inr h.2

theorem old_eq_none_of_not_magic {b : List Nat} (h : ¬oldMagicOk b) :
    Entry.interpret_as_old_binary b = none := by
  cases hs : Entry.interpret_as_old_binary b with
  | none => rfl
  | some p =>
    obtain ⟨e, r⟩ := p
    obtain ⟨en, hdet, -⟩ := interpret_as_old_binary_eq_some hs
    exact absurd (oldMagicOk_of_detect hdet) h

theorem old_eq_none_of_namesize_zero {b : List Nat} {en : Endianness}
    (hdet : oldDetect b en) (hns : u16At en b 20 = 0) :
    Entry.interpret_as_old_binary b = none := by
  cases hs : Entry.interpret_as_old_binary b with
  | none => rfl
  | some p =>
    obtain ⟨e, r⟩ := p
    obtain ⟨en', hdet', -, hns', -⟩ := interpret_as_old_binary_eq_some hs
    cases oldDetect_unique hdet hdet'
    exact absurd hns hns'

theorem portable_eq_none_of_not_magic {b : List Nat} (h : ¬portableMagicOk b) :
    Entry.interpret_as_portable_ascii b = none := by
  cases hs : Entry.interpret_as_portable_ascii b with
  | none => rfl
  | some p =>
    obtain ⟨e, r⟩ := p
    obtain ⟨dev, ino, modev, u_id, g_id, nlink, r_dev, mtime, ns, fs, -, hm, -⟩ :=
      interpret_as_portable_ascii_eq_some hs
    exact absurd hm h

theorem new_eq_none_of_not_magic {b : List Nat} (h : ¬newMagicOk b) :
    Entry.interpret_as_new_ascii_or_crc b = none := by
  cases hs : Entry.interpret_as_new_ascii_or_crc b with
  | none => rfl
  | some p =>
    obtain ⟨e, r⟩ := p
    obtain ⟨crc, -, -, hm, -⟩ := interpret_as_new_ascii_or_crc_eq_some hs
    rcases hm with ⟨hm, -⟩ | ⟨-, hm, -⟩
    · exact absurd (Or.inr hm) h
    · exact absurd (Or.inl hm) h

theorem first_bytes_of_seg_eq {b m : List Nat} (hm : seg b 0 6 = m) (hlen : m.length = 6) :
    byteAt b 0 = byteAt m 0 ∧ byteAt b 1 = byteAt m 1 := by
  have h0 : (seg b 0 6).length = 6 := by rw [hm, hlen]
  constructor
  · rw [← byteAt_seg (show (0 : Nat) < 6 by omega) (b := b) (i := 0), hm]
  · rw [show (1 : Nat) = 0 + 1 from rfl, ← byteAt_seg (show (1 : Nat) < 6 by omega) (b := b) (i := 0), hm]

theorem not_oldMagicOk_of_portable {b : List Nat} (h : portableMagicOk b) :
    ¬oldMagicOk b := by
  obtain ⟨h0, h1⟩ := first_bytes_of_seg_eq h (by decide)
  simp only [MAGIC_PORTABLE, byteAt] at h0 h1
  intro hold
  rcases hold with hbe | hle <;>
    simp_all [Endianness.u8_array_to_u16, byteAt]

theorem not_oldMagicOk_of_new {b : List Nat} (h : newMagicOk b) :
    ¬oldMagicOk b := by
  rcases h with h | h <;>
  · obtain ⟨h0, h1⟩ := first_bytes_of_seg_eq h (by decide)
    simp only [MAGIC_NEW_ASCII, MAGIC_CRC, byteAt] at h0 h1
    intro hold
    rcases hold with hbe | hle <;>
      simp_all [Endianness.u8_array_to_u16, byteAt]

theorem not_portableMagicOk_of_new {b : List Nat} (h : newMagicOk b) :
    ¬portableMagicOk b := by
  intro hp
  rcases h with h | h <;> rw [hp] at h <;> simp [MAGIC_PORTABLE, MAGIC_NEW_ASCII, MAGIC_CRC] at h

/-! ### Iterator helpers -/

theorem Iter.next_none_state {s : List Nat} (h : (Iter.next s).1 = none) :
    (Iter.next s).2 = s := by
  by_cases hs : s.isEmpty
  · simp [Iter.next, hs]
  · cases hn : Entry.new s with
    | none => simp [Iter.next, hs, hn]
    | some p =>
      obtain ⟨e, rem⟩ := p
      simp [Iter.next, hs, hn] at h

theorem Iter.stateAfter_of_none {s : List Nat} (h : (Iter.next s).1 = none) :
    ∀ n, Iter.stateAfter s n = s := by
  intro n
  induction n with
  | zero => rfl
  | succ n ih =>
    show (Iter.next (Iter.stateAfter s n)).2 = s
    rw [ih]
    exact Iter.next_none_state h


/-! ### Dispatch helpers -/

theorem entry_new_of_old {b : List Nat} {p : Entry × List Nat}
    (h : Entry.interpret_as_old_binary b = some p) :
    Entry.new b = Option.filter (fun q => q.1.name != TRAILER) (some p) := by
  unfold Entry.new
  rw [h]
  rfl

theorem entry_new_of_portable {b : List Nat} {p : Entry × List Nat}
    (hold : Entry.interpret_as_old_binary b = none)
    (h : Entry.interpret_as_portable_ascii b = some p) :
    Entry.new b = Option.filter (fun q => q.1.name != TRAILER) (some p) := by
  unfold Entry.new
  rw [hold, h]
  rfl

theorem entry_new_of_neither {b : List Nat}
    (hold : Entry.interpret_as_old_binary b = none)
    (hpasc : Entry.interpret_as_portable_ascii b = none) :
    Entry.new b =
      Option.filter (fun q => q.1.name != TRAILER) (Entry.interpret_as_new_ascii_or_crc b) := by
  unfold Entry.new
  rw [hold, hpasc]
  rfl

theorem entry_new_cases {b : List Nat} {p : Entry × List Nat}
    (h : Entry.new b = some p) :
    (Entry.interpret_as_old_binary b = some p ∨
     (Entry.interpret_as_old_binary b = none ∧ Entry.interpret_as_portable_ascii b = some p) ∨
     (Entry.interpret_as_old_binary b = none ∧ Entry.interpret_as_portable_ascii b = none ∧
      Entry.interpret_as_new_ascii_or_crc b = some p)) ∧
    p.1.name ≠ TRAILER := by
  unfold Entry.new at h
  cases hold : Entry.interpret_as_old_binary b with
  | some q =>
    rw [hold] at h
    have h2 : Option.filter (fun q => q.1.name != TRAILER) (some q) = some p := h
    simp only [Option.filter] at h2
    split at h2
    · cases h2
      rename_i hpred
      exact ⟨Or.inl rfl, by simpa using hpred⟩
    · exact Option.noConfusion h2
  | none =>
    rw [hold] at h
    cases hpasc : Entry.interpret_as_portable_ascii b with
    | some q =>
      rw [hpasc] at h
      have h2 : Option.filter (fun q => q.1.name != TRAILER) (some q) = some p := h
      simp only [Option.filter] at h2
      split at h2
      · cases h2
        rename_i hpred
        exact ⟨Or.inr (Or.inl ⟨rfl, rfl⟩), by simpa using hpred⟩
      · exact Option.noConfusion h2
    | none =>
      rw [hpasc] at h
      cases hnew : Entry.interpret_as_new_ascii_or_crc b with
      | some q =>
        rw [hnew] at h
        have h2 : Option.filter (fun q => q.1.name != TRAILER) (some q) = some p := h
        simp only [Option.filter] at h2
        split at h2
        · cases h2
          rename_i hpred
          exact ⟨Or.inr (Or.inr ⟨rfl, rfl, rfl⟩), by simpa using hpred⟩
        · exact Option.noConfusion h2
      | none =>
        rw [hnew] at h
        exact Option.noConfusion h

theorem iter_next_some {s s' : List Nat} {e : Entry}
    (h : Iter.next s = (some e, s')) : Entry.new s = some (e, s') := by
  by_cases hs : s.isEmpty
  · simp [Iter.next, hs] at h
  · cases hn : Entry.new s with
    | none => simp [Iter.next, hs, hn] at h
    | some p =>
      obtain ⟨e0, r0⟩ := p
      simp only [Iter.next, hs, if_false, Bool.false_eq_true, hn] at h
      obtain ⟨he, hr⟩ := Prod.mk.injEq .. |>.mp h
      cases he
      cases hr
      rfl


/-! ### Concrete buffers used by witnesses and examples -/

/-- A minimal Old Binary entry: big-endian magic, all fields zero except
`namesize = 1`, followed by two extra bytes `[1, 2]`. -/
def exOldBuf : List Nat :=
  [0x71, 0xC7] ++ List.replicate 18 0 ++ [0, 1] ++ List.replicate 6 0 ++ [1, 2]

/-- The entry `exOldBuf` decodes to. -/
def exOldEntry : Entry :=
  { dev := some 0, devmajor := none, devminor := none, ino := 0, mode := ⟨0⟩,
    uid := 0, gid := 0, nlink := 0, rdev := some 0, rdevmajor := none,
    rdevminor := none, mtime := 0, name := [], file := [] }

/-- An Old Binary `TRAILER!!!` entry followed by the decodable `exOldBuf`. -/
def exTrailBuf : List Nat :=
  [0x71, 0xC7] ++ List.replicate 18 0 ++ [0, 11] ++ List.replicate 4 0 ++
  TRAILER ++ [0, 0] ++ exOldBuf

/-- The trailer entry at the head of `exTrailBuf`. -/
def exTrailEntry : Entry :=
  { dev := some 0, devmajor := none, devminor := none, ino := 0, mode := ⟨0⟩,
    uid := 0, gid := 0, nlink := 0, rdev := some 0, rdevmajor := none,
    rdevminor := none, mtime := 0, name := TRAILER, file := [] }

/-! ### C6 and C7 -/

/-- **C6.** An entry whose decoded name equals the sentinel `TRAILER!!!` is
never yielded by the sequence: every entry a pull yields has a different
name, and whenever the underlying three-decoder dispatch decodes a trailer
entry, that pull and every later pull produce nothing — even when further
decodable bytes follow the sentinel entry in the buffer. -/
theorem c6_trailer_never_yielded :
    (∀ (s s' : List Nat) (e : Entry), Iter.next s = (some e, s') → e.name ≠ TRAILER) ∧
    (∀ (s : List Nat) (p : Entry × List Nat),
      ((Entry.interpret_as_old_binary s).orElse
        fun _ => Entry.interpret_as_portable_ascii s).orElse
        (fun _ => Entry.interpret_as_new_ascii_or_crc s) = some p →
      p.1.name = TRAILER →
      ∀ n, (Iter.next (Iter.stateAfter s n)).1 = none) := by
  constructor
  · intro s s' e h
    exact ((entry_new_cases (iter_next_some h)).2)
  · intro s p hchain htrail n
    have hnew : Entry.new s = none := by
      unfold Entry.new
      rw [hchain]
      simp [Option.filter, htrail]
    have hnone : (Iter.next s).1 = none := by
      by_cases hs : s.isEmpty <;> simp [Iter.next, hs, hnew]
    rw [Iter.stateAfter_of_none hnone]
    exact hnone

/-- Witness for C6 at concrete inputs: a decoded Old Binary entry's name is
not the sentinel, and a buffer whose head entry is the sentinel produces
nothing, although decodable bytes follow it. -/
theorem c6_witness :
    exOldEntry.name ≠ TRAILER ∧ (Iter.next (Iter.stateAfter exTrailBuf 2)).1 = none := by
  constructor
  · exact c6_trailer_never_yielded.1 exOldBuf [1, 2] exOldEntry (by decide)
  · exact c6_trailer_never_yielded.2 exTrailBuf (exTrailEntry, exOldBuf) (by decide) (by decide) 2

/-- **C7.** The sequence is permanently exhausted after its first empty
pull: if a pull from state `s` produces no entry, every later pull produces
no entry either. -/
theorem c7_exhausted_forever :
    ∀ s : List Nat, (Iter.next s).1 = none →
      ∀ n, (Iter.next (Iter.stateAfter s n)).1 = none := by
  intro s h n
  rw [Iter.stateAfter_of_none h]
  exact h

/-- Witness for C7: a buffer no decoder accepts yields nothing on the
first pull and on every later pull. -/
theorem c7_witness : (Iter.next (Iter.stateAfter [1, 2, 3] 5)).1 = none :=
  c7_exhausted_forever [1, 2, 3] (by decide) 5


/-! ### C8 and C9 -/

/-- **C8.** On every yielded entry exactly one of `dev` and the pair
`devmajor`/`devminor` is populated, never both and never neither, and the
same exclusivity holds for `rdev` against `rdevmajor`/`rdevminor`; the
Old Binary and Portable ASCII decoders populate the combined numbers, the
New ASCII / CRC decoder the split ones. -/
theorem c8_dev_exclusivity :
    ∀ (s s' : List Nat) (e : Entry), Iter.next s = (some e, s') →
      ((e.dev.isSome = true ∧ e.devmajor = none ∧ e.devminor = none ∧
        e.rdev.isSome = true ∧ e.rdevmajor = none ∧ e.rdevminor = none) ∨
       (e.dev = none ∧ e.devmajor.isSome = true ∧ e.devminor.isSome = true ∧
        e.rdev = none ∧ e.rdevmajor.isSome = true ∧ e.rdevminor.isSome = true)) ∧
      ((Entry.interpret_as_old_binary s = some (e, s') ∨
        Entry.interpret_as_portable_ascii s = some (e, s')) →
        e.dev.isSome = true ∧ e.devmajor = none ∧ e.devminor = none ∧
        e.rdev.isSome = true ∧ e.rdevmajor = none ∧ e.rdevminor = none) ∧
      (Entry.interpret_as_new_ascii_or_crc s = some (e, s') →
        e.dev = none ∧ e.devmajor.isSome = true ∧ e.devminor.isSome = true ∧
        e.rdev = none ∧ e.rdevmajor.isSome = true ∧ e.rdevminor.isSome = true) := by
  intro s s' e hnext
  have hold_side : ∀ r, Entry.interpret_as_old_binary s = some (e, r) →
      e.dev.isSome = true ∧ e.devmajor = none ∧ e.devminor = none ∧
      e.rdev.isSome = true ∧ e.rdevmajor = none ∧ e.rdevminor = none := by
    intro r h
    obtain ⟨en, -, -, -, -, -, -, -, he, -⟩ := interpret_as_old_binary_eq_some h
    subst he
    simp
  have hpasc_side : ∀ r, Entry.interpret_as_portable_ascii s = some (e, r) →
      e.dev.isSome = true ∧ e.devmajor = none ∧ e.devminor = none ∧
      e.rdev.isSome = true ∧ e.rdevmajor = none ∧ e.rdevminor = none := by
    intro r h
    obtain ⟨d, i2, m2, u2, g2, n2, rd, mt, ns, fs, -, -, -, -, -, -, -, -, -, -,
      -, -, -, -, -, -, -, he, -⟩ := interpret_as_portable_ascii_eq_some h
    subst he
    simp
  have hnew_side : ∀ r, Entry.interpret_as_new_ascii_or_crc s = some (e, r) →
      e.dev = none ∧ e.devmajor.isSome = true ∧ e.devminor.isSome = true ∧
      e.rdev = none ∧ e.rdevmajor.isSome = true ∧ e.rdevminor.isSome = true := by
    intro r h
    obtain ⟨crc, hsh⟩ := interpret_as_new_ascii_or_crc_eq_some h
    obtain ⟨-, -, -, -, -, -, -, -, -, -, -, -, -, -, -, -, -, -, -, -, -, -, he, -⟩ := hsh
    subst he
    simp
  refine ⟨?_, ?_, hnew_side s'⟩
  · obtain ⟨hdisp, -⟩ := entry_new_cases (iter_next_some hnext)
    rcases hdisp with h | ⟨-, h⟩ | ⟨-, -, h⟩
    · exact Or.inl (hold_side s' h)
    · exact Or.inl (hpasc_side s' h)
    · exact Or.inr (hnew_side s' h)
  · rintro (h | h)
    · exact hold_side s' h
    · exact hpasc_side s' h

/-- Witness for C8: the Old Binary entry of `exOldBuf` populates the
combined device numbers and not the split ones. -/
theorem c8_witness :
    (exOldEntry.dev.isSome = true ∧ exOldEntry.devmajor = none ∧ exOldEntry.devminor = none ∧
     exOldEntry.rdev.isSome = true ∧ exOldEntry.rdevmajor = none ∧ exOldEntry.rdevminor = none) ∨
    (exOldEntry.dev = none ∧ exOldEntry.devmajor.isSome = true ∧ exOldEntry.devminor.isSome = true ∧
     exOldEntry.rdev = none ∧ exOldEntry.rdevmajor.isSome = true ∧ exOldEntry.rdevminor.isSome = true) :=
  (c8_dev_exclusivity exOldBuf [1, 2] exOldEntry (by decide)).1

/-- **C9.** Every yielded entry comes from one of the three decoders, and
its `file` slice length equals exactly the file-size value decoded from
that entry's header (the split 16-bit pair for Old Binary, the 11-digit
octal field at offset 65 for Portable ASCII, the 8-digit hex field at
offset 54 for New ASCII / CRC). -/
theorem c9_file_length :
    ∀ (s s' : List Nat) (e : Entry), Iter.next s = (some e, s') →
      (Entry.interpret_as_old_binary s = some (e, s') ∨
       Entry.interpret_as_portable_ascii s = some (e, s') ∨
       Entry.interpret_as_new_ascii_or_crc s = some (e, s')) ∧
      (∀ r, Entry.interpret_as_old_binary s = some (e, r) →
        ∃ en, oldDetect s en ∧ e.file.length = oldFs en s) ∧
      (∀ r, Entry.interpret_as_portable_ascii s = some (e, r) →
        ∃ fs, from_str_radix 8 (2 ^ 64) (seg s 65 11) = some fs ∧ e.file.length = fs) ∧
      (∀ r, Entry.interpret_as_new_ascii_or_crc s = some (e, r) →
        ∃ fs, from_str_radix 16 (2 ^ 32) (seg s 54 8) = some fs ∧ e.file.length = fs) := by
  intro s s' e hnext
  refine ⟨?_, ?_, ?_, ?_⟩
  · obtain ⟨hdisp, -⟩ := entry_new_cases (iter_next_some hnext)
    rcases hdisp with h | ⟨-, h⟩ | ⟨-, -, h⟩
    · exact Or.inl h
    · exact Or.inr (Or.inl h)
    · exact Or.inr (Or.inr h)
  · intro r h
    obtain ⟨en, hdet, hl, hns, hn1, -, hfs, -, he, -⟩ := interpret_as_old_binary_eq_some h
    subst he
    refine ⟨en, hdet, ?_⟩
    simp only []
    exact length_seg (by omega)
  · intro r h
    obtain ⟨d, i2, m2, u2, g2, n2, rd, mt, ns, fs, hl, -, -, -, -, -, -, -, -, -, -,
      hfsv, hns, hn1, -, hfs, -, he, -⟩ := interpret_as_portable_ascii_eq_some h
    subst he
    refine ⟨fs, hfsv, ?_⟩
    simp only []
    exact length_seg (by omega)
  · intro r h
    obtain ⟨crc, hsh⟩ := interpret_as_new_ascii_or_crc_eq_some h
    obtain ⟨hl, -, -, -, -, -, -, -, -, ⟨-, h54⟩, -, -, -, -, -, -, hns, hn1, -,
      hfs, -, -, he, -⟩ := hsh
    subst he
    refine ⟨newFs s, isSome_eq_some_getD h54, ?_⟩
    simp only []
    apply length_seg
    unfold newCs
    omega

/-- Witness for C9: the entry of `exOldBuf` has a file slice whose length
is the decoded (zero) file size. -/
theorem c9_witness :
    ∃ en, oldDetect exOldBuf en ∧ exOldEntry.file.length = oldFs en exOldBuf :=
  (c9_file_length exOldBuf [1, 2] exOldEntry (by decide)).2.1 [1, 2] (by decide)



/-- A minimal Portable ASCII entry: all-zero octal fields except
`namesize = 000001`, zero-length content, truncated right after the
filesize field (the terminator skip clamps at the end of the buffer). -/
def exPascBuf : List Nat :=
  MAGIC_PORTABLE ++ List.replicate 42 48 ++ List.replicate 11 48 ++
  (List.replicate 5 48 ++ [49]) ++ List.replicate 11 48

/-- The entry `exPascBuf` decodes to. -/
def exPascEntry : Entry :=
  { dev := some 0, devmajor := none, devminor := none, ino := 0, mode := ⟨0⟩,
    uid := 0, gid := 0, nlink := 0, rdev := some 0, rdevmajor := none,
    rdevminor := none, mtime := 0, name := [], file := [] }

/-- A minimal New ASCII entry: all-zero hex fields except
`namesize = 00000001`, zero-length content. -/
def exNewBuf : List Nat :=
  MAGIC_NEW_ASCII ++ List.replicate 88 48 ++
  (List.replicate 7 48 ++ [49]) ++ List.replicate 8 48

/-- The entry `exNewBuf` decodes to. -/
def exNewEntry : Entry :=
  { dev := none, devmajor := some 0, devminor := some 0, ino := 0, mode := ⟨0⟩,
    uid := 0, gid := 0, nlink := 0, rdev := none, rdevmajor := some 0,
    rdevminor := some 0, mtime := 0, name := [], file := [] }

/-- An Old Binary header whose namesize field is zero. -/
def exNsZeroBuf : List Nat := [0x71, 0xC7] ++ List.replicate 24 0

/-! ### C5 -/

/-- **C5.** The three decoders are tried in the fixed order Old Binary,
Portable ASCII, New ASCII / CRC against the same buffer and the first
success wins; the three magic checks are mutually exclusive, each decoder
succeeds only when its own magic matches, and a buffer beginning with one
format's magic is declined by the other two decoders. -/
theorem c5_dispatch_and_magic :
    ∀ b : List Nat,
      (¬(oldMagicOk b ∧ portableMagicOk b) ∧ ¬(oldMagicOk b ∧ newMagicOk b) ∧
       ¬(portableMagicOk b ∧ newMagicOk b)) ∧
      ((∀ p, Entry.interpret_as_old_binary b = some p → oldMagicOk b) ∧
       (∀ p, Entry.interpret_as_portable_ascii b = some p → portableMagicOk b) ∧
       (∀ p, Entry.interpret_as_new_ascii_or_crc b = some p → newMagicOk b)) ∧
      ((portableMagicOk b ∨ newMagicOk b → Entry.interpret_as_old_binary b = none) ∧
       (oldMagicOk b ∨ newMagicOk b → Entry.interpret_as_portable_ascii b = none) ∧
       (oldMagicOk b ∨ portableMagicOk b → Entry.interpret_as_new_ascii_or_crc b = none)) ∧
      ((∀ p, Entry.interpret_as_old_binary b = some p →
         Entry.new b = Option.filter (fun q => q.1.name != TRAILER) (some p)) ∧
       (∀ p, Entry.interpret_as_old_binary b = none →
         Entry.interpret_as_portable_ascii b = some p →
         Entry.new b = Option.filter (fun q => q.1.name != TRAILER) (some p)) ∧
       (Entry.interpret_as_old_binary b = none →
        Entry.interpret_as_portable_ascii b = none →
        Entry.new b = Option.filter (fun q => q.1.name != TRAILER)
          (Entry.interpret_as_new_ascii_or_crc b))) := by
  intro b
  have hOldMagic : ∀ p, Entry.interpret_as_old_binary b = some p → oldMagicOk b := by
    rintro ⟨e, r⟩ h
    obtain ⟨en, hdet, -⟩ := interpret_as_old_binary_eq_some h
    exact oldMagicOk_of_detect hdet
  have hPascMagic : ∀ p, Entry.interpret_as_portable_ascii b = some p → portableMagicOk b := by
    rintro ⟨e, r⟩ h
    obtain ⟨d, i2, m2, u2, g2, n2, rd, mt, ns, fs, -, hm, -⟩ :=
      interpret_as_portable_ascii_eq_some h
    exact hm
  have hNewMagic : ∀ p, Entry.interpret_as_new_ascii_or_crc b = some p → newMagicOk b := by
    rintro ⟨e, r⟩ h
    obtain ⟨crc, -, -, hm, -⟩ := interpret_as_new_ascii_or_crc_eq_some h
    rcases hm with ⟨hm, -⟩ | ⟨-, hm, -⟩
    · exact Or.inr hm
    · exact Or.inl hm
  refine ⟨⟨?_, ?_, ?_⟩, ⟨hOldMagic, hPascMagic, hNewMagic⟩, ⟨?_, ?_, ?_⟩,
    fun p => entry_new_of_old, fun p => entry_new_of_portable, entry_new_of_neither⟩
  · rintro ⟨ho, hp⟩
    exact not_oldMagicOk_of_portable hp ho
  · rintro ⟨ho, hn⟩
    exact not_oldMagicOk_of_new hn ho
  · rintro ⟨hp, hn⟩
    exact not_portableMagicOk_of_new hn hp
  · intro h
    rcases h with h | h
    · exact old_eq_none_of_not_magic (not_oldMagicOk_of_portable h)
    · exact old_eq_none_of_not_magic (not_oldMagicOk_of_new h)
  · intro h
    apply portable_eq_none_of_not_magic
    rcases h with h | h
    · intro hp
      exact not_oldMagicOk_of_portable hp h
    · exact not_portableMagicOk_of_new h
  · intro h
    apply new_eq_none_of_not_magic
    rcases h with h | h
    · intro hn
      exact not_oldMagicOk_of_new hn h
    · intro hn
      exact not_portableMagicOk_of_new hn h

/-- Witness for C5 at concrete inputs: an Old Binary decode certifies its
magic; a Portable ASCII magic makes the Old Binary decoder decline; and
the dispatch keeps the Old Binary result of `exOldBuf`. -/
theorem c5_witness :
    oldMagicOk exOldBuf ∧
    Entry.interpret_as_old_binary exPascBuf = none ∧
    Entry.new exOldBuf =
      Option.filter (fun q => q.1.name != TRAILER) (some (exOldEntry, [1, 2])) :=
  ⟨(c5_dispatch_and_magic exOldBuf).2.1.1 (exOldEntry, [1, 2]) (by decide),
   (c5_dispatch_and_magic exPascBuf).2.2.1.1 (Or.inl (by unfold portableMagicOk; decide)),
   (c5_dispatch_and_magic exOldBuf).2.2.2.1 (exOldEntry, [1, 2]) (by decide)⟩


/-! ### C10 -/

/-- **C10.** A header whose namesize field equals 1 is accepted and yields
an entry whose name is empty, in all three formats, at the public
interface; in general each decoder requires only that the namesize be
nonzero and produces a name of exactly `namesize - 1` bytes. -/
theorem c10_namesize_one_empty_name :
    (Iter.next (iter_files exOldBuf) = (some exOldEntry, [1, 2]) ∧ exOldEntry.name = []) ∧
    (Iter.next (iter_files exPascBuf) = (some exPascEntry, []) ∧ exPascEntry.name = []) ∧
    (Iter.next (iter_files exNewBuf) = (some exNewEntry, []) ∧ exNewEntry.name = []) ∧
    (∀ (b : List Nat) (e : Entry) (r : List Nat),
      Entry.interpret_as_old_binary b = some (e, r) →
      ∃ en, oldDetect b en ∧ u16At en b 20 ≠ 0 ∧ e.name.length = u16At en b 20 - 1) ∧
    (∀ (b : List Nat) (e : Entry) (r : List Nat),
      Entry.interpret_as_portable_ascii b = some (e, r) →
      ∃ ns, from_str_radix 8 (2 ^ 32) (seg b 59 6) = some ns ∧ ns ≠ 0 ∧
        e.name.length = ns - 1) ∧
    (∀ (b : List Nat) (e : Entry) (r : List Nat),
      Entry.interpret_as_new_ascii_or_crc b = some (e, r) →
      newNs b ≠ 0 ∧ e.name.length = newNs b - 1) := by
  refine ⟨by decide, by decide, by decide, ?_, ?_, ?_⟩
  · intro b e r h
    obtain ⟨en, hdet, hl, hns, hn1, -, -, -, he, -⟩ := interpret_as_old_binary_eq_some h
    subst he
    refine ⟨en, hdet, hns, ?_⟩
    simp only []
    exact length_seg (by omega)
  · intro b e r h
    obtain ⟨d, i2, m2, u2, g2, n2, rd, mt, ns, fs, hl, -, -, -, -, -, -, -, -, -, hnsv,
      -, hns, hn1, -, -, -, he, -⟩ := interpret_as_portable_ascii_eq_some h
    subst he
    refine ⟨ns, hnsv, hns, ?_⟩
    simp only []
    exact length_seg (by omega)
  · intro b e r h
    obtain ⟨crc, hsh⟩ := interpret_as_new_ascii_or_crc_eq_some h
    obtain ⟨hl, -, -, -, -, -, -, -, -, -, -, -, -, -, -, -, hns, hn1, -, -, -, -,
      he, -⟩ := hsh
    subst he
    refine ⟨hns, ?_⟩
    simp only []
    exact length_seg (by omega)

/-- Witness for C10: the general namesize facts instantiated on the three
concrete buffers. -/
theorem c10_witness :
    (∃ en, oldDetect exOldBuf en ∧ u16At en exOldBuf 20 ≠ 0 ∧
      exOldEntry.name.length = u16At en exOldBuf 20 - 1) ∧
    (∃ ns, from_str_radix 8 (2 ^ 32) (seg exPascBuf 59 6) = some ns ∧ ns ≠ 0 ∧
      exPascEntry.name.length = ns - 1) ∧
    (newNs exNewBuf ≠ 0 ∧ exNewEntry.name.length = newNs exNewBuf - 1) :=
  ⟨c10_namesize_one_empty_name.2.2.2.1 exOldBuf exOldEntry [1, 2] (by decide),
   c10_namesize_one_empty_name.2.2.2.2.1 exPascBuf exPascEntry [] (by decide),
   c10_namesize_one_empty_name.2.2.2.2.2 exNewBuf exNewEntry [] (by decide)⟩


/-! ### C4 -/

/-- **C4 (amended: twelve 2-byte fields follow the magic, not eleven).**
On success the Old Binary decoder has consumed exactly the 2-byte magic,
twelve subsequent 2-byte fields in the detected byte order (the header is
26 bytes), `namesize - 1` name bytes, `namesize % 2 + 1` skipped bytes,
`filesize` content bytes and a final pad byte exactly when the file size
is odd; the remaining buffer is the input minus these bytes, and the
decoder declines when the magic matches neither byte order or the
namesize is zero. -/
theorem c4_old_binary_layout :
    ∀ (b : List Nat) (e : Entry) (r : List Nat),
      (Entry.interpret_as_old_binary b = some (e, r) →
        ∃ en, oldDetect b en ∧
          26 ≤ b.length ∧
          u16At en b 20 ≠ 0 ∧
          e = { dev := some (u16At en b 2), devmajor := none, devminor := none,
                ino := u16At en b 4,
                mode := ⟨u16At en b 6⟩,
                uid := u16At en b 8, gid := u16At en b 10, nlink := u16At en b 12,
                rdev := some (u16At en b 14), rdevmajor := none, rdevminor := none,
                mtime := (u16At en b 16) <<< 16 ||| u16At en b 18,
                name := seg b 26 (u16At en b 20 - 1),
                file := seg b (26 + (u16At en b 20 - 1) + (u16At en b 20 % 2 + 1))
                  (oldFs en b) } ∧
          r = b.drop (26 + (u16At en b 20 - 1) + (u16At en b 20 % 2 + 1) +
            oldFs en b + oldFs en b % 2)) ∧
      (¬oldMagicOk b → Entry.interpret_as_old_binary b = none) ∧
      (∀ en, oldDetect b en → u16At en b 20 = 0 →
        Entry.interpret_as_old_binary b = none) := by
  intro b e r
  refine ⟨?_, old_eq_none_of_not_magic, fun en => old_eq_none_of_namesize_zero⟩
  intro h
  obtain ⟨en, hdet, hl, hns, -, -, -, -, he, hr⟩ := interpret_as_old_binary_eq_some h
  exact ⟨en, hdet, hl, hns, he, hr⟩

/-- Counterexample to C4 as stated: with "eleven subsequent 2-byte fields"
the header would be 24 bytes and this entry's consumption 26 bytes, but
the decoder consumes 28 bytes: its remaining buffer is the input minus 28
bytes and differs from the input minus 26 bytes. -/
theorem c4_counterexample :
    Entry.interpret_as_old_binary exOldBuf = some (exOldEntry, exOldBuf.drop 28) ∧
    exOldBuf.drop 28 = [1, 2] ∧
    exOldBuf.drop 26 ≠ exOldBuf.drop 28 := by decide

/-- Witness for C4: the three conjuncts instantiated on concrete buffers —
a successful decode, a magic-mismatch decline, and a zero-namesize
decline. -/
theorem c4_witness :
    (∃ en, oldDetect exOldBuf en ∧
      26 ≤ exOldBuf.length ∧
      u16At en exOldBuf 20 ≠ 0 ∧
      exOldEntry =
        { dev := some (u16At en exOldBuf 2), devmajor := none, devminor := none,
          ino := u16At en exOldBuf 4,
          mode := ⟨u16At en exOldBuf 6⟩,
          uid := u16At en exOldBuf 8, gid := u16At en exOldBuf 10,
          nlink := u16At en exOldBuf 12,
          rdev := some (u16At en exOldBuf 14), rdevmajor := none, rdevminor := none,
          mtime := (u16At en exOldBuf 16) <<< 16 ||| u16At en exOldBuf 18,
          name := seg exOldBuf 26 (u16At en exOldBuf 20 - 1),
          file := seg exOldBuf
            (26 + (u16At en exOldBuf 20 - 1) + (u16At en exOldBuf 20 % 2 + 1))
            (oldFs en exOldBuf) } ∧
      [1, 2] = exOldBuf.drop (26 + (u16At en exOldBuf 20 - 1) +
        (u16At en exOldBuf 20 % 2 + 1) + oldFs en exOldBuf + oldFs en exOldBuf % 2)) ∧
    Entry.interpret_as_old_binary [0, 0, 0, 0] = none ∧
    Entry.interpret_as_old_binary exNsZeroBuf = none :=
  ⟨(c4_old_binary_layout exOldBuf exOldEntry [1, 2]).1 (by decide),
   (c4_old_binary_layout [0, 0, 0, 0] exOldEntry []).2.1
     (by unfold oldMagicOk; decide),
   (c4_old_binary_layout exNsZeroBuf exOldEntry []).2.2 Endianness.Big
     (by unfold oldDetect; decide) (by decide)⟩


/-! ### C2 -/

theorem mode_mask_iff {v : Nat} (hv : v < 2 ^ 32) :
    v &&& (0xFFFFFFFF ^^^ modeAllBits) = 0 ↔ v &&& 0o177777 = v := by
  have hall : modeAllBits = 0o177777 := rfl
  constructor
  · intro h
    apply Nat.eq_of_testBit_eq
    intro i
    rw [Nat.testBit_and,
      show Nat.testBit 0o177777 i = decide (i < 16) from by
        rw [show (0o177777 : Nat) = 2 ^ 16 - 1 from by norm_num,
          Nat.testBit_two_pow_sub_one]]
    by_cases hi : i < 16
    · simp [hi]
    · have hv0 : v.testBit i = false := by
        by_cases hi32 : i < 32
        · have hbit := congrArg (fun x => Nat.testBit x i) h
          simp only [Nat.testBit_and, Nat.testBit_xor, Nat.zero_testBit, hall] at hbit
          have hA : Nat.testBit 0xFFFFFFFF i = true := by
            rw [show (0xFFFFFFFF : Nat) = 2 ^ 32 - 1 from by norm_num,
              Nat.testBit_two_pow_sub_one]
            simpa using hi32
          have hB : Nat.testBit 0o177777 i = false := by
            rw [show (0o177777 : Nat) = 2 ^ 16 - 1 from by norm_num,
              Nat.testBit_two_pow_sub_one]
            simpa using hi
          rw [hA, hB] at hbit
          simpa using hbit
        · exact Nat.testBit_lt_two_pow (lt_of_lt_of_le hv
            (Nat.pow_le_pow_right (by norm_num) (by omega)))
      simp [hv0]
  · intro h
    apply Nat.eq_of_testBit_eq
    intro i
    rw [Nat.testBit_and, Nat.testBit_xor, Nat.zero_testBit, hall]
    have hbit := congrArg (fun x => Nat.testBit x i) h
    simp only [Nat.testBit_and] at hbit
    by_cases hi : i < 16
    · have hA : Nat.testBit 0xFFFFFFFF i = true := by
        rw [show (0xFFFFFFFF : Nat) = 2 ^ 32 - 1 from by norm_num,
          Nat.testBit_two_pow_sub_one]
        simp
        omega
      have hB : Nat.testBit 0o177777 i = true := by
        rw [show (0o177777 : Nat) = 2 ^ 16 - 1 from by norm_num,
          Nat.testBit_two_pow_sub_one]
        simpa using hi
      rw [hA, hB]
      simp
    · have hB : Nat.testBit 0o177777 i = false := by
        rw [show (0o177777 : Nat) = 2 ^ 16 - 1 from by norm_num,
          Nat.testBit_two_pow_sub_one]
        simpa using hi
      rw [hB] at hbit
      simp only [Bool.and_false] at hbit
      rw [hB, ← hbit]
      simp
  
/-- **C2 (amended).** Constructing a `Mode` from raw bits succeeds exactly
when the value lies within the union of the declared flag bits
(`0o177777`): every 16-bit value is accepted (so the Old Binary decoder
never declines on account of mode bits), while a 32-bit mode field with
any bit above bit 15 set makes `from_bits` fail and the entry decline. -/
theorem c2_mode_from_bits_amended :
    ∀ v : Nat, v < 2 ^ 32 →
      (((Mode.from_bits v).isSome = true) ↔ v &&& 0o177777 = v) ∧
      (v < 2 ^ 16 → Mode.from_bits v = some ⟨v⟩) := by
  intro v hv
  constructor
  · constructor
    · intro h
      apply (mode_mask_iff hv).mp
      by_contra hne
      rw [Mode.from_bits, if_neg hne] at h
      simp at h
    · intro h
      rw [Mode.from_bits, if_pos ((mode_mask_iff hv).mpr h)]
      rfl
  · intro h16
    have hm : v &&& 0o177777 = v := by
      rw [show (0o177777 : Nat) = 2 ^ 16 - 1 from by norm_num,
        Nat.and_pow_two_sub_one_eq_mod, Nat.mod_eq_of_lt h16]
    rw [Mode.from_bits, if_pos ((mode_mask_iff hv).mpr hm)]

/-- Witness for C2 (amended), at the common regular-file mode `0o100644`. -/
theorem c2_witness :
    (((Mode.from_bits 0o100644).isSome = true) ↔ 0o100644 &&& 0o177777 = 0o100644) ∧
    (0o100644 < 2 ^ 16 → Mode.from_bits 0o100644 = some ⟨0o100644⟩) :=
  c2_mode_from_bits_amended 0o100644 (by norm_num)

/-- `exNewBuf` with its mode field changed to `00010000` (hex), i.e. a
mode value of `0x10000`, whose bit 16 is outside every declared flag. -/
def exModeHiBuf : List Nat := exNewBuf.set 17 49

/-- Counterexample to C2 as stated: the raw value `0x10000` is rejected by
`Mode::from_bits`, and an otherwise well-formed New ASCII entry is
declined purely on account of its mode bits — the same buffer with an
all-zero mode field decodes. -/
theorem c2_counterexample :
    Mode.from_bits 0x10000 = none ∧
    Entry.interpret_as_new_ascii_or_crc exModeHiBuf = none ∧
    Entry.interpret_as_new_ascii_or_crc exNewBuf = some (exNewEntry, []) := by decide

/-! ### C1 -/

/-- Models the `filesize.try_into().unwrap()` at the content read of
`interpret_as_portable_ascii` on a 32-bit target, where `usize` is 32 bits
wide: the function mirrors the decoder up to that conversion (magic, the
ten numeric fields, the nonzero-namesize check and the name read all
succeed) and reports whether the parsed 64-bit file size exceeds
`usize::MAX`, in which case the `unwrap` panics.  On a 64-bit target the
conversion is infallible, which is what `interpret_as_portable_ascii`
models. -/
def portable_ascii_hits_unwrap_on_32bit (binary : List Nat) : Bool :=
  (obind ((ByteArray.new binary).proceed_str 6) fun (magic, ba) =>
    if magic ≠ MAGIC_PORTABLE then none
    else
      obind (ba.proceed_str_into_octal_u32 6) fun (_dev, ba) =>
      obind (ba.proceed_str_into_octal_u32 6) fun (_ino, ba) =>
      obind (ba.proceed_str_into_octal_u32 6) fun (_mode, ba) =>
      obind (ba.proceed_str_into_octal_u32 6) fun (_u_id, ba) =>
      obind (ba.proceed_str_into_octal_u32 6) fun (_g_id, ba) =>
      obind (ba.proceed_str_into_octal_u32 6) fun (_nlink, ba) =>
      obind (ba.proceed_str_into_octal_u32 6) fun (_r_dev, ba) =>
      obind (ba.proceed_str_into_octal_u64 11) fun (_mtime, ba) =>
      obind (ba.proceed_str_into_octal_u32 6) fun (namesize, ba) =>
      obind (ba.proceed_str_into_octal_u64 11) fun (filesize, ba) =>
      if namesize = 0 then none
      else
        obind (ba.proceed_str (namesize - 1)) fun (_name, _ba) =>
        some filesize).elim false fun filesize => decide (2 ^ 32 ≤ filesize)

/-- A Portable ASCII header with `namesize = 1` and the maximal 11-digit
octal file size `77777777777` (= 8589934591 ≥ 2^32). -/
def exOverflowBuf : List Nat :=
  MAGIC_PORTABLE ++ List.replicate 42 48 ++ List.replicate 11 48 ++
  (List.replicate 5 48 ++ [49]) ++ List.replicate 11 55

/-- **C1 (failing input).** On a 32-bit target the Portable ASCII decoder
reaches the `filesize.try_into().unwrap()` with a file size of
8589934591 ≥ 2^32 and panics instead of declining; the 64-bit decoder
merely declines on the same buffer (too few content bytes), so the
sequence stops there. -/
theorem c1_portable_ascii_unwrap_panics_on_32bit :
    portable_ascii_hits_unwrap_on_32bit exOverflowBuf = true ∧
    from_str_radix 8 (2 ^ 64) (seg exOverflowBuf 65 11) = some 8589934591 ∧
    Entry.interpret_as_portable_ascii exOverflowBuf = none ∧
    (Iter.next (iter_files exOverflowBuf)).1 = none := by decide


/-! ### C3 -/

theorem hexVal_set_eq {b : List Nat} {p y i : Nat} (h : i + 8 ≤ p) :
    hexVal (b.set p y) i = hexVal b i := by
  unfold hexVal
  rw [seg_set_of_ge h]

theorem hexOk_set {b : List Nat} {p y i : Nat} (h : i + 8 ≤ p) (hok : hexOk b i) :
    hexOk (b.set p y) i := by
  unfold hexOk at *
  rw [seg_set_of_ge h]
  exact hok

theorem newNs_set_eq {b : List Nat} {p y : Nat} (h : 102 + 8 ≤ p) :
    newNs (b.set p y) = newNs b := hexVal_set_eq (by omega)

theorem newFs_set_eq {b : List Nat} {p y : Nat} (h : 102 + 8 ≤ p) :
    newFs (b.set p y) = newFs b := hexVal_set_eq (by omega)

theorem newCs_set_eq {b : List Nat} {p y : Nat} (h : 102 + 8 ≤ p) :
    newCs (b.set p y) = newCs b := by
  unfold newCs
  rw [newNs_set_eq h]

theorem newEnd_set_eq {b : List Nat} {p y : Nat} (h : 102 + 8 ≤ p) :
    newEnd (b.set p y) = newEnd b := by
  unfold newEnd
  rw [newNs_set_eq h, newFs_set_eq h]

theorem newCs_ge {b : List Nat} : 110 ≤ newCs b := by
  unfold newCs
  omega

theorem newEnd_ge {b : List Nat} : newCs b + newFs b ≤ newEnd b := by
  rw [newEnd_eq, nextMul4]
  omega


set_option maxRecDepth 8000 in
/-- **C3.** For every buffer the New CRC decoder (magic `070702`) accepts:
changing any single byte of the entry's content region makes the whole
decode attempt for that entry fail when the entry's mode is not a symbolic
link, while a symbolic-link entry still decodes, unchanged except for the
content byte itself. -/
theorem c3_crc_content_mutation :
    ∀ (b : List Nat) (e : Entry) (r : List Nat) (p y : Nat),
      (∀ x ∈ b, x < 256) → y < 256 →
      Entry.interpret_as_new_ascii_or_crc b = some (e, r) →
      seg b 0 6 = MAGIC_CRC →
      newCs b ≤ p → p < newCs b + newFs b →
      y ≠ byteAt b p →
      (e.mode.contains Mode.SYMBOLIK_LINK = false → Entry.new (b.set p y) = none) ∧
      (e.mode.contains Mode.SYMBOLIK_LINK = true →
        Entry.interpret_as_new_ascii_or_crc (b.set p y) =
          some ({ e with file := e.file.set (p - newCs b) y }, r)) := by
  intro b e r p y hbytes hy hdec hcrc hp1 hp2 hne
  obtain ⟨crc, hsh⟩ := interpret_as_new_ascii_or_crc_eq_some hdec
  obtain ⟨hl, hv6, hmagic, hx6, hx14, hx22, hx30, hx38, hx46, hx54, hx62, hx70,
    hx78, hx86, hx94, hx102, hns, hn1, hnv, hfs, hmask, hck, he, hr⟩ := hsh
  have hcrcT : crc = true := by
    rcases hmagic with ⟨-, h⟩ | ⟨hne', -, -⟩
    · exact h
    · exact absurd hcrc hne'
  subst hcrcT
  -- geometry
  have hcs110 : 110 ≤ newCs b := newCs_ge
  have h110p : 110 ≤ p := le_trans hcs110 hp1
  have hkey : p < b.length ∧ newCs b + newFs b ≤ b.length := by
    have h1 := hfs
    have h2 := hp1
    have h3 := hp2
    unfold newCs at h2 h3 ⊢
    omega
  have hplen : p < b.length := hkey.1
  have hlenEq : (b.set p y).length = b.length := List.length_set b p y
  -- header fields unchanged
  have hseg0 : seg (b.set p y) 0 6 = seg b 0 6 := seg_set_of_ge (by omega)
  have hNs : newNs (b.set p y) = newNs b := newNs_set_eq (by omega)
  have hFs : newFs (b.set p y) = newFs b := newFs_set_eq (by omega)
  have hCs : newCs (b.set p y) = newCs b := newCs_set_eq (by omega)
  have hEnd : newEnd (b.set p y) = newEnd b := newEnd_set_eq (by omega)
  have hname110 : 110 + (newNs b - 1) ≤ newCs b := by
    unfold newCs
    omega
  have hnameSeg : seg (b.set p y) 110 (newNs b - 1) = seg b 110 (newNs b - 1) :=
    seg_set_of_ge (by omega)
  have hchkVal : hexVal (b.set p y) 102 = hexVal b 102 := hexVal_set_eq (by omega)
  -- the mutated content
  have hef : e.file = seg b (newCs b) (newFs b) := by rw [he]
  have hem : e.mode = ⟨hexVal b 14⟩ := by rw [he]
  have hfileSeg : seg (b.set p y) (newCs b) (newFs b) =
      (seg b (newCs b) (newFs b)).set (p - newCs b) y :=
    seg_set_inside hp1 hp2
  have hfl : (seg b (newCs b) (newFs b)).length = newFs b := by
    apply length_seg
    have h1 := hfs
    unfold newCs
    omega
  have hidx : p - newCs b < (seg b (newCs b) (newFs b)).length := by
    rw [hfl]
    omega
  have hxval : (seg b (newCs b) (newFs b)).getD (p - newCs b) 0 = byteAt b p := by
    have := byteAt_seg (b := b) (i := newCs b) (n := newFs b) (j := p - newCs b) (by omega)
    rw [show newCs b + (p - newCs b) = p from by omega] at this
    exact this
  have hmem : byteAt b p ∈ b := by
    unfold byteAt
    rw [List.getD_eq_getElem?_getD, List.getElem?_eq_getElem hplen]
    exact List.getElem_mem hplen
  have hchkne : checksumOf ((seg b (newCs b) (newFs b)).set (p - newCs b) y) ≠
      checksumOf (seg b (newCs b) (newFs b)) := by
    apply checksum_set_ne hidx
    · rw [hxval]
      exact hbytes _ hmem
    · exact hy
    · rw [hxval]
      exact hne
  constructor
  · -- non-symlink: the whole decode attempt fails
    intro hcon
    rw [hem] at hcon
    have hchk : checksumOf (seg b (newCs b) (newFs b)) = hexVal b 102 := hck rfl hcon
    have hnewOk : newMagicOk (b.set p y) := Or.inr (by rw [hseg0]; exact hcrc)
    have hold : Entry.interpret_as_old_binary (b.set p y) = none :=
      old_eq_none_of_not_magic (not_oldMagicOk_of_new hnewOk)
    have hpasc : Entry.interpret_as_portable_ascii (b.set p y) = none :=
      portable_eq_none_of_not_magic (not_portableMagicOk_of_new hnewOk)
    have hnew : Entry.interpret_as_new_ascii_or_crc (b.set p y) = none := by
      cases hnb : Entry.interpret_as_new_ascii_or_crc (b.set p y) with
      | none => rfl
      | some q =>
        exfalso
        obtain ⟨e2, r2⟩ := q
        obtain ⟨crc2, hsh2⟩ := interpret_as_new_ascii_or_crc_eq_some hnb
        obtain ⟨-, -, hmagic2, -, -, -, -, -, -, -, -, -, -, -, -, -, -, -, -, -,
          -, hck2, -, -⟩ := hsh2
        have hcrc2T : crc2 = true := by
          rcases hmagic2 with ⟨-, h⟩ | ⟨hne', -, -⟩
          · exact h
          · exact absurd (by rw [hseg0]; exact hcrc) hne'
        subst hcrc2T
        have hcon2 : (⟨hexVal (b.set p y) 14⟩ : Mode).contains Mode.SYMBOLIK_LINK = false := by
          rw [hexVal_set_eq (by omega : 14 + 8 ≤ p)]
          exact hcon
        have := hck2 rfl hcon2
        rw [hCs, hFs, hfileSeg, hchkVal, ← hchk] at this
        exact hchkne this
    rw [entry_new_of_neither hold hpasc, hnew]
    rfl
  · -- symbolic link: still decodes, only the content byte changes
    intro hcon
    rw [hem] at hcon
    have hshape : NewShape (b.set p y) true
        { ino := hexVal (b.set p y) 6, mode := ⟨hexVal (b.set p y) 14⟩,
          uid := hexVal (b.set p y) 22, gid := hexVal (b.set p y) 30,
          nlink := hexVal (b.set p y) 38, mtime := hexVal (b.set p y) 46,
          dev := none,
          devmajor := some (hexVal (b.set p y) 62),
          devminor := some (hexVal (b.set p y) 70),
          rdev := none, rdevmajor := some (hexVal (b.set p y) 78),
          rdevminor := some (hexVal (b.set p y) 86),
          name := seg (b.set p y) 110 (newNs (b.set p y) - 1),
          file := seg (b.set p y) (newCs (b.set p y)) (newFs (b.set p y)) }
        ((b.set p y).drop (newEnd (b.set p y))) := by
      refine ⟨?_, ?_, Or.inl ⟨by rw [hseg0]; exact hcrc, rfl⟩,
        hexOk_set (by omega) hx6, hexOk_set (by omega) hx14, hexOk_set (by omega) hx22,
        hexOk_set (by omega) hx30, hexOk_set (by omega) hx38, hexOk_set (by omega) hx46,
        hexOk_set (by omega) hx54, hexOk_set (by omega) hx62, hexOk_set (by omega) hx70,
        hexOk_set (by omega) hx78, hexOk_set (by omega) hx86, hexOk_set (by omega) hx94,
        hexOk_set (by omega) hx102, ?_, ?_, ?_, ?_, ?_, ?_, rfl, rfl⟩
      · rw [hlenEq]
        exact hl
      · rw [hseg0]
        exact hv6
      · rw [hNs]
        exact hns
      · rw [hNs, hlenEq]
        exact hn1
      · rw [hNs, hnameSeg]
        exact hnv
      · rw [hNs, hFs, hlenEq]
        exact hfs
      · rw [hexVal_set_eq (show 14 + 8 ≤ p from by omega)]
        exact hmask
      · intro hdummy hcf
        rw [hexVal_set_eq (show 14 + 8 ≤ p from by omega)] at hcf
        rw [hcon] at hcf
        exact Bool.noConfusion hcf
    have hrec : Entry.mk none (some (hexVal (b.set p y) 62)) (some (hexVal (b.set p y) 70))
        (hexVal (b.set p y) 6) ⟨hexVal (b.set p y) 14⟩ (hexVal (b.set p y) 22)
        (hexVal (b.set p y) 30) (hexVal (b.set p y) 38) none
        (some (hexVal (b.set p y) 78)) (some (hexVal (b.set p y) 86))
        (hexVal (b.set p y) 46)
        (seg (b.set p y) 110 (newNs (b.set p y) - 1))
        (seg (b.set p y) (newCs (b.set p y)) (newFs (b.set p y))) =
        { e with file := e.file.set (p - newCs b) y } := by
      rw [he, hNs, hCs, hFs, hnameSeg, hfileSeg,
        hexVal_set_eq (show 6 + 8 ≤ p from by omega),
        hexVal_set_eq (show 14 + 8 ≤ p from by omega),
        hexVal_set_eq (show 22 + 8 ≤ p from by omega),
        hexVal_set_eq (show 30 + 8 ≤ p from by omega),
        hexVal_set_eq (show 38 + 8 ≤ p from by omega),
        hexVal_set_eq (show 46 + 8 ≤ p from by omega),
        hexVal_set_eq (show 62 + 8 ≤ p from by omega),
        hexVal_set_eq (show 70 + 8 ≤ p from by omega),
        hexVal_set_eq (show 78 + 8 ≤ p from by omega),
        hexVal_set_eq (show 86 + 8 ≤ p from by omega)]
    have hrEq : (b.set p y).drop (newEnd (b.set p y)) = r := by
      rw [hEnd, drop_set_of_lt (lt_of_lt_of_le hp2 newEnd_ge), hr]
    rw [interpret_as_new_ascii_or_crc_of_shape hshape, hrec, hrEq]


/-- An 8-character all-zero hex field. -/
def hex0 : List Nat := List.replicate 8 48

/-- A New CRC archive with one regular-file entry `a` whose content is
`ABCD` (checksum `0x10a`). -/
def exCrcBuf : List Nat :=
  MAGIC_CRC ++ hex0 ++ [48, 48, 48, 48, 56, 48, 48, 48] ++ hex0 ++ hex0 ++
  [48, 48, 48, 48, 48, 48, 48, 49] ++ hex0 ++ [48, 48, 48, 48, 48, 48, 48, 52] ++
  hex0 ++ hex0 ++ hex0 ++ hex0 ++ [48, 48, 48, 48, 48, 48, 48, 50] ++
  [48, 48, 48, 48, 48, 49, 48, 97] ++ [97] ++ [0] ++ [65, 66, 67, 68]

/-- The entry `exCrcBuf` decodes to. -/
def exCrcEntry : Entry :=
  { dev := none, devmajor := some 0, devminor := some 0, ino := 0, mode := ⟨0x8000⟩,
    uid := 0, gid := 0, nlink := 1, rdev := none, rdevmajor := some 0,
    rdevminor := some 0, mtime := 0, name := [97], file := [65, 66, 67, 68] }

/-- `exCrcBuf` with the mode field replaced by `0000a1ff`, a symbolic
link. -/
def exCrcSymBuf : List Nat :=
  MAGIC_CRC ++ hex0 ++ [48, 48, 48, 48, 97, 49, 102, 102] ++ hex0 ++ hex0 ++
  [48, 48, 48, 48, 48, 48, 48, 49] ++ hex0 ++ [48, 48, 48, 48, 48, 48, 48, 52] ++
  hex0 ++ hex0 ++ hex0 ++ hex0 ++ [48, 48, 48, 48, 48, 48, 48, 50] ++
  [48, 48, 48, 48, 48, 49, 48, 97] ++ [97] ++ [0] ++ [65, 66, 67, 68]

/-- The entry `exCrcSymBuf` decodes to. -/
def exCrcSymEntry : Entry :=
  { dev := none, devmajor := some 0, devminor := some 0, ino := 0, mode := ⟨0xa1ff⟩,
    uid := 0, gid := 0, nlink := 1, rdev := none, rdevmajor := some 0,
    rdevminor := some 0, mtime := 0, name := [97], file := [65, 66, 67, 68] }

/-- Witness for C3: flipping the first content byte of the regular-file
CRC entry kills the whole decode, while the same flip on the symbolic-link
variant leaves the entry decodable with just that content byte changed. -/
theorem c3_witness :
    Entry.new (exCrcBuf.set 112 0) = none ∧
    Entry.interpret_as_new_ascii_or_crc (exCrcSymBuf.set 112 0) =
      some ({ exCrcSymEntry with
                file := exCrcSymEntry.file.set (112 - newCs exCrcSymBuf) 0 }, []) :=
  ⟨(c3_crc_content_mutation exCrcBuf exCrcEntry [] 112 0 (by decide) (by decide)
      (by decide) (by decide) (by decide) (by decide) (by decide)).1 (by decide),
   (c3_crc_content_mutation exCrcSymBuf exCrcSymEntry [] 112 0 (by decide) (by decide)
      (by decide) (by decide) (by decide) (by decide) (by decide)).2 (by decide)⟩

end Cpio
